import Mathlib

/-
Verification development for the `nao test` evaluation harness
(cli/nao_core/commands/test/{evaluator,servers,testcases}.py and the
`test` command in cli/nao_core/commands/test/__init__.py).

The Python code is shallowly embedded: JSON values decoded by `json.loads`
become the inductive type `Json`; Python floats are modelled as exact
scaled decimals (`PyFloat`, mantissa / 10^exp); Python `==` (which equates
`1`, `1.0` and `True`) becomes `pyEq`; the specific regular expressions of
`extract_json_from_response` are hand-compiled into dedicated search
functions; `json.loads` becomes the fuel-based recursive-descent parser
`jsonLoads` (strict JSON subset: the `NaN`/`Infinity` extensions are not
modelled, no theorem below depends on them); network and process effects
are supplied by explicit environment records, and Python exceptions by an
`Except`-style result that the per-test `try/except` handler consumes.
-/

namespace NB

/-! ## Characters and Python string utilities -/

/-- Single-quote character (code point 39). -/
def sq : Char := Char.ofNat 39

/-- Double-quote character (code point 34). -/
def dq : Char := Char.ofNat 34

/-- Backtick character (code point 96). -/
def btick : Char := Char.ofNat 96

/-- Left curly-brace character (code point 123). -/
def lbrace : Char := Char.ofNat 123

/-- Right curly-brace character (code point 125). -/
def rbrace : Char := Char.ofNat 125

/-- Python whitespace (the class matched by `\s` and stripped by `str.strip`):
space, tab, newline, carriage return, form feed, vertical tab. -/
def isPySpace (c : Char) : Bool :=
  c = ' ' || c = '\t' || c = '\n' || c = '\r' || c = Char.ofNat 12 || c = Char.ofNat 11

/-- Python `str.strip()` on a character list. -/
def pyStrip (l : List Char) : List Char :=
  ((l.dropWhile isPySpace).reverse.dropWhile isPySpace).reverse

/-- Python `str.replace(a, b)` for single-character `a`, `b`
(used for the `.replace("'", '"')` repair step). -/
def replaceChar (l : List Char) (a b : Char) : List Char :=
  l.map (fun c => if c = a then b else c)

/-- Python `str.replace("None", "null")`: left-to-right, non-overlapping. -/
def replaceNone : List Char → List Char
  | 'N' :: 'o' :: 'n' :: 'e' :: rest => 'n' :: 'u' :: 'l' :: 'l' :: replaceNone rest
  | c :: rest => c :: replaceNone rest
  | [] => []

/-- Does `l` start with the pattern `pat`? -/
def startsWithL : List Char → List Char → Bool
  | [], _ => true
  | _ :: _, [] => false
  | p :: ps, c :: cs => p = c && startsWithL ps cs

/-- Suffix of `l` after the first (leftmost) occurrence of `pat`,
or `none` if `pat` does not occur. -/
def dropAfterFirst (pat : List Char) : List Char → Option (List Char)
  | [] => if startsWithL pat [] then some [] else none
  | c :: t =>
    if startsWithL pat (c :: t) then some ((c :: t).drop pat.length)
    else dropAfterFirst pat t

/-- Characters of `l` strictly before the first occurrence of `pat`,
or `none` if `pat` does not occur. -/
def takeBeforeFirst (pat : List Char) : List Char → Option (List Char)
  | [] => if startsWithL pat [] then some [] else none
  | c :: t =>
    if startsWithL pat (c :: t) then some []
    else (takeBeforeFirst pat t).map (fun r => c :: r)

/-! ## Lexicographic comparison (Python tuple/str `<`)

Python compares strings by code point and tuples lexicographically; the
comparator sort key is a tuple of strings. We model both levels with one
generic `Ordering`-valued lexicographic comparison. -/

/-- Generic lexicographic comparison of lists from an element comparison. -/
def cmpLex (c : α → α → Ordering) : List α → List α → Ordering
  | [], [] => .eq
  | [], _ :: _ => .lt
  | _ :: _, [] => .gt
  | a :: as, b :: bs => (c a b).then (cmpLex c as bs)

/-- Python `<` on characters: by code point. -/
def cmpChar (a b : Char) : Ordering := compare a.toNat b.toNat

/-- Python `<` on tuples of strings (each string as a character list). -/
def cmpKey : List (List Char) → List (List Char) → Ordering :=
  cmpLex (cmpLex cmpChar)

theorem cmpChar_eq_iff (a b : Char) : cmpChar a b = .eq ↔ a = b := by
  unfold cmpChar
  rw [Nat.compare_eq_eq]
  constructor
  · intro h
    apply Char.eq_of_val_eq
    apply UInt32.eq_of_toBitVec_eq
    apply BitVec.eq_of_toNat_eq
    exact h
  · intro h; rw [h]

theorem cmpChar_swap (a b : Char) : cmpChar a b = (cmpChar b a).swap := by
  unfold cmpChar
  rcases Nat.lt_trichotomy a.toNat b.toNat with h | h | h <;>
    simp_all [Nat.compare_eq_lt.mpr, Nat.compare_eq_gt.mpr, Nat.compare_eq_eq.mpr,
      Ordering.swap]

theorem cmpChar_lt_trans {a b c : Char} (h₁ : cmpChar a b = .lt) (h₂ : cmpChar b c = .lt) :
    cmpChar a c = .lt := by
  unfold cmpChar at *
  rw [Nat.compare_eq_lt] at *
  omega

theorem cmpLex_eq_iff (c : α → α → Ordering) (hc : ∀ a b, c a b = .eq ↔ a = b) :
    ∀ x y, cmpLex c x y = .eq ↔ x = y := by
  intro x
  induction x with
  | nil => intro y; cases y <;> simp [cmpLex]
  | cons a as ih =>
    intro y
    cases y with
    | nil => simp [cmpLex]
    | cons b bs =>
      simp only [cmpLex]
      rcases ho : c a b with _ | _ | _
      · have hne : a ≠ b := fun h => by simp [hc a b |>.mpr h] at ho
        simp [Ordering.then, hne]
      · have hab : a = b := (hc a b).mp ho
        subst hab
        simp [Ordering.then, ih bs]
      · have hne : a ≠ b := fun h => by simp [hc a b |>.mpr h] at ho
        simp [Ordering.then, hne]

theorem cmpLex_swap (c : α → α → Ordering) (hc : ∀ a b, c a b = (c b a).swap) :
    ∀ x y, cmpLex c x y = (cmpLex c y x).swap := by
  intro x
  induction x with
  | nil => intro y; cases y <;> simp [cmpLex, Ordering.swap]
  | cons a as ih =>
    intro y
    cases y with
    | nil => simp [cmpLex, Ordering.swap]
    | cons b bs =>
      simp only [cmpLex]
      rcases ho : c b a with _ | _ | _ <;> rw [hc a b, ho] <;>
        simp [Ordering.swap, Ordering.then, ih bs]

theorem cmpLex_lt_trans (c : α → α → Ordering)
    (hc : ∀ a b, c a b = .eq ↔ a = b)
    (ht : ∀ {a b d : α}, c a b = .lt → c b d = .lt → c a d = .lt) :
    ∀ {x y z : List α}, cmpLex c x y = .lt → cmpLex c y z = .lt → cmpLex c x z = .lt := by
  intro x
  induction x with
  | nil =>
    intro y z h₁ h₂
    cases y with
    | nil => exact h₂
    | cons b bs =>
      cases z with
      | nil => simp [cmpLex] at h₂
      | cons d ds => simp [cmpLex]
  | cons a as ih =>
    intro y z h₁ h₂
    cases y with
    | nil => simp [cmpLex] at h₁
    | cons b bs =>
      cases z with
      | nil => simp [cmpLex] at h₂
      | cons d ds =>
        simp only [cmpLex] at h₁ h₂ ⊢
        rcases hab : c a b with _ | _ | _ <;>
          rcases hbd : c b d with _ | _ | _ <;>
          simp only [hab, hbd, Ordering.then] at h₁ h₂ ⊢
        all_goals
          first
          | exact Ordering.noConfusion h₁
          | exact Ordering.noConfusion h₂
          | (rw [ht hab hbd]; try rfl
             done)
          | (rw [← (hc b d).mp hbd, hab]; try rfl
             done)
          | (rw [(hc a b).mp hab, hbd]; try rfl
             done)
          | (rw [((hc a b).mp hab).trans ((hc b d).mp hbd), (hc d d).mpr rfl]
             exact ih h₁ h₂)

/-! Specialised facts for the two instantiated levels. -/

theorem cmpStr_eq_iff (x y : List Char) : cmpLex cmpChar x y = .eq ↔ x = y :=
  cmpLex_eq_iff cmpChar cmpChar_eq_iff x y

theorem cmpKey_eq_iff (x y : List (List Char)) : cmpKey x y = .eq ↔ x = y :=
  cmpLex_eq_iff _ cmpStr_eq_iff x y

theorem cmpKey_swap (x y : List (List Char)) : cmpKey x y = (cmpKey y x).swap :=
  cmpLex_swap _ (cmpLex_swap cmpChar cmpChar_swap) x y

theorem cmpKey_lt_trans {x y z : List (List Char)}
    (h₁ : cmpKey x y = .lt) (h₂ : cmpKey y z = .lt) : cmpKey x z = .lt :=
  cmpLex_lt_trans _ cmpStr_eq_iff
    (fun hab hbd => cmpLex_lt_trans cmpChar cmpChar_eq_iff
      (fun h h' => cmpChar_lt_trans h h') hab hbd) h₁ h₂

/-- `≤` on sort keys: "not greater". -/
def keyLe (x y : List (List Char)) : Prop := cmpKey x y ≠ .gt

instance : DecidableRel keyLe := fun _ _ => inferInstanceAs (Decidable ¬ _)

theorem keyLe_iff (x y : List (List Char)) : keyLe x y ↔ cmpKey x y = .lt ∨ x = y := by
  constructor
  · intro h
    rcases hcmp : cmpKey x y with _ | _ | _
    · exact Or.inl rfl
    · exact Or.inr ((cmpKey_eq_iff x y).mp hcmp)
    · exact absurd hcmp h
  · rintro (h | rfl)
    · intro hg; rw [h] at hg; exact Ordering.noConfusion hg
    · intro hg; rw [(cmpKey_eq_iff x x).mpr rfl] at hg; exact Ordering.noConfusion hg

theorem keyLe_total (x y : List (List Char)) : keyLe x y ∨ keyLe y x := by
  by_cases h : cmpKey x y = .gt
  · right
    intro hg
    have hs := cmpKey_swap x y
    rw [h, hg] at hs
    exact Ordering.noConfusion hs
  · left; exact h

theorem keyLe_trans {x y z : List (List Char)} (h₁ : keyLe x y) (h₂ : keyLe y z) :
    keyLe x z := by
  rcases (keyLe_iff x y).mp h₁ with h | h
  · rcases (keyLe_iff y z).mp h₂ with h' | h'
    · exact (keyLe_iff x z).mpr (Or.inl (cmpKey_lt_trans h h'))
    · subst h'; exact h₁
  · subst h; exact h₂

theorem keyLe_antisymm {x y : List (List Char)} (h₁ : keyLe x y) (h₂ : keyLe y x) :
    x = y := by
  rcases (keyLe_iff x y).mp h₁ with h | h
  · exfalso
    apply h₂
    have hs := cmpKey_swap y x
    rw [h] at hs
    exact hs
  · exact h

/-! ## Python values decoded by `json.loads`

`json.loads` yields `None`, `bool`, `int`, `float`, `str`, `list`, `dict`.
Python floats are modelled as exact scaled decimals `man / 10 ^ exp`
(`PyFloat`); the source's `round(v, 2)` becomes exact half-even decimal
rounding. -/

/-- Model of a Python float: the value `man / 10 ^ exp`. -/
structure PyFloat where
  man : Int
  exp : Nat
deriving Repr, DecidableEq

/-- `10 ^ e` as an integer. -/
def pow10 (e : Nat) : Int := (10 : Int) ^ e

/-- Numeric equality of two model floats (cross multiplication). -/
def floatEqB (a b : PyFloat) : Bool := a.man * pow10 b.exp == b.man * pow10 a.exp

/-- Numeric equality of an integer and a model float. -/
def intFloatEqB (n : Int) (f : PyFloat) : Bool := n * pow10 f.exp == f.man

/-- A JSON value as decoded by Python's `json.loads` (strict JSON subset). -/
inductive Json where
  | null
  | bool (b : Bool)
  | int (n : Int)
  | float (f : PyFloat)
  | str (s : String)
  | arr (items : List Json)
  | obj (fields : List (String × Json))
deriving Repr

/-- First field of a Python dict with the given key (keys are unique in a
dict, so "first" is exact). -/
def findField (k : String) : List (String × Json) → Option Json
  | [] => none
  | kv :: rest => if kv.1 = k then some kv.2 else findField k rest

mutual

/-- Python `==` on decoded JSON values: numeric across `bool`/`int`/`float`,
structural on strings, element-wise on lists, key-wise on dicts. -/
def pyEq : Json → Json → Bool
  | .null, .null => true
  | .bool a, .bool b => a == b
  | .bool a, .int n => (if a then (1 : Int) else 0) == n
  | .int n, .bool a => n == (if a then (1 : Int) else 0)
  | .bool a, .float f => intFloatEqB (if a then 1 else 0) f
  | .float f, .bool a => intFloatEqB (if a then 1 else 0) f
  | .int a, .int b => a == b
  | .int a, .float f => intFloatEqB a f
  | .float f, .int b => intFloatEqB b f
  | .float a, .float b => floatEqB a b
  | .str a, .str b => a == b
  | .arr a, .arr b => pyEqList a b
  | .obj a, .obj b => a.length == b.length && pyEqFields a b
  | _, _ => false

/-- Python `==` on lists: element-wise (`false` on length mismatch). -/
def pyEqList : List Json → List Json → Bool
  | [], [] => true
  | x :: xs, y :: ys => pyEq x y && pyEqList xs ys
  | _, _ => false

/-- Every key of the first dict occurs in the second with a `pyEq`-equal
value (together with a length check this is Python dict `==`). -/
def pyEqFields : List (String × Json) → List (String × Json) → Bool
  | [], _ => true
  | kv :: rest, b =>
    (match findField kv.1 b with
     | some v => pyEq kv.2 v
     | none => false) && pyEqFields rest b

end

/-- Python dict `==`. -/
def pyEqObj (a b : List (String × Json)) : Bool := a.length == b.length && pyEqFields a b

/-- Python truthiness of a decoded JSON value (`if json_data:`). -/
def jsonTruthy : Json → Bool
  | .null => false
  | .bool b => b
  | .int n => decide (n ≠ 0)
  | .float f => decide (f.man ≠ 0)
  | .str s => !s.data.isEmpty
  | .arr [] => false
  | .arr (_ :: _) => true
  | .obj [] => false
  | .obj (_ :: _) => true

/-- Python `repr` of a string: wrapped in single quotes (escaping of inner
quotes is not modelled; no theorem below depends on it). -/
def strRepr (s : String) : String := String.mk (sq :: s.data ++ [sq])

/-- Rendering of a model float for `str()`. The decimal text Python would
print for a binary double is not modelled exactly; no theorem below
depends on this rendering. -/
def floatStr (f : PyFloat) : String :=
  if f.exp = 0 then toString f.man ++ ".0"
  else toString f.man ++ "e-" ++ toString f.exp

mutual

/-- Python `repr` of a decoded JSON value. -/
def pyRepr : Json → String
  | .null => "None"
  | .bool true => "True"
  | .bool false => "False"
  | .int n => toString n
  | .float f => floatStr f
  | .str s => strRepr s
  | .arr items => "[" ++ pyReprList items ++ "]"
  | .obj fields => String.mk [lbrace] ++ pyReprFields fields ++ String.mk [rbrace]

/-- Comma-separated `repr`s of list items. -/
def pyReprList : List Json → String
  | [] => ""
  | [x] => pyRepr x
  | x :: rest => pyRepr x ++ ", " ++ pyReprList rest

/-- Comma-separated `repr`s of dict entries. -/
def pyReprFields : List (String × Json) → String
  | [] => ""
  | [kv] => strRepr kv.1 ++ ": " ++ pyRepr kv.2
  | kv :: rest => strRepr kv.1 ++ ": " ++ pyRepr kv.2 ++ ", " ++ pyReprFields rest

end

/-- Python `str()` of a decoded JSON value (used to build sort keys in
`compare_results`): identity on strings, `repr` otherwise. -/
def pyStr : Json → String
  | .str s => s
  | v => pyRepr v

/-! ## `evaluator.normalize_data` and `evaluator.compare_results` -/

/-- Python `round(v, 2)` on a model float: exact half-even rounding to two
decimal places. -/
def pyRound2 (f : PyFloat) : PyFloat :=
  let r : Int := f.man * 100
  let d : Int := pow10 f.exp
  let n : Int := Int.fdiv r d
  let rm : Int := r - n * d
  let up : Int :=
    if rm * 2 < d then n
    else if rm * 2 > d then n + 1
    else if n % 2 = 0 then n else n + 1
  ⟨up, 2⟩

/-- One record (a decoded JSON object): an association list with unique
keys, in the dict's insertion order. -/
abbrev Row := List (String × Json)

/-- The comparator's per-field normalisation: floats are rounded to two
decimals, every other value (ints, bools, strings, nested containers) is
kept unchanged. -/
def normVal : Json → Json
  | .float f => .float (pyRound2 f)
  | v => v

/-- `sorted(row.items())` key order (dict keys are unique, so the tuple
comparison never reaches the values). -/
def pairLe (a b : String × Json) : Prop := cmpLex cmpChar a.1.data b.1.data ≠ .gt

instance : DecidableRel pairLe := fun _ _ => inferInstanceAs (Decidable ¬ _)

/-- `evaluator.normalize_data`, per record: iterate the fields in sorted
key order and round top-level float values to two decimals. -/
def norm_row (row : Row) : Row :=
  (List.insertionSort pairLe row).map (fun kv => (kv.1, normVal kv.2))

/-- `evaluator.normalize_data`. -/
def normalize_data (data : List Row) : List Row := data.map norm_row

/-- The sort key of a normalised record:
`tuple(str(v) for v in x.values())`. -/
def rowKey (r : Row) : List (List Char) := r.map (fun kv => (pyStr kv.2).data)

/-- The comparator's row order: sort-key tuples compared as Python tuples
of strings. Comparing tuples of strings cannot raise, so the source's
`try/except` around `.sort` is unreachable for decoded JSON data and the
sort is modelled directly. -/
def rowLe (x y : Row) : Prop := keyLe (rowKey x) (rowKey y)

instance : DecidableRel rowLe := fun _ _ => inferInstanceAs (Decidable (keyLe _ _))

instance : IsTotal Row rowLe := ⟨fun x y => keyLe_total (rowKey x) (rowKey y)⟩

instance : IsTrans Row rowLe := ⟨fun _ _ _ h h' => keyLe_trans h h'⟩

/-- Python `==` on two lists of records. -/
def rowsEqB : List Row → List Row → Bool
  | [], [] => true
  | x :: xs, y :: ys => pyEqObj x y && rowsEqB xs ys
  | _, _ => false

/-- `evaluator.compare_results`: false on length mismatch, otherwise
normalise both sides, stably sort each by its string-tuple key
(Python's `list.sort` is stable), and compare element-wise with
Python `==`. -/
def compare_results (expected actual : List Row) : Bool :=
  if expected.length ≠ actual.length then false
  else
    rowsEqB (List.insertionSort rowLe (normalize_data expected))
      (List.insertionSort rowLe (normalize_data actual))

example : compare_results [[("id", .int 1)], [("id", .int 2)]]
    [[("id", .int 2)], [("id", .int 1)]] = true := by decide

example : compare_results [[("a", .int 1)], [("b", .int 1)]]
    [[("b", .int 1)], [("a", .int 1)]] = false := by decide

example : pyRound2 ⟨1005, 3⟩ = ⟨100, 2⟩ := by decide

example : compare_results [[("a", .float ⟨1005, 3⟩)]] [[("a", .float ⟨10, 1⟩)]] = true := by
  decide

/-! ## `json.loads`

Recursive-descent parser for the strict JSON grammar used by Python's
`json.loads` (leading/trailing whitespace allowed, `dict` built with
last-duplicate-key-wins, `int` vs `float` distinguished by the presence of
a fraction or exponent). Recursion is on explicit fuel; every recursive
call consumes at least one character, so `length + 1` fuel is enough. -/

/-- JSON inter-token whitespace (Python `json.decoder.WHITESPACE`). -/
def isJsonWs (c : Char) : Bool := c = ' ' || c = '\t' || c = '\n' || c = '\r'

/-- Decimal digit value. -/
def digitVal (c : Char) : Option Nat :=
  if 48 ≤ c.toNat ∧ c.toNat ≤ 57 then some (c.toNat - 48) else none

/-- Hexadecimal digit value (for `\u` escapes). -/
def hexVal (c : Char) : Option Nat :=
  if 48 ≤ c.toNat ∧ c.toNat ≤ 57 then some (c.toNat - 48)
  else if 97 ≤ c.toNat ∧ c.toNat ≤ 102 then some (c.toNat - 87)
  else if 65 ≤ c.toNat ∧ c.toNat ≤ 70 then some (c.toNat - 55)
  else none

/-- Longest prefix of decimal digits, as digit values. -/
def takeDigits : List Char → (List Nat × List Char)
  | [] => ([], [])
  | c :: rest =>
    match digitVal c with
    | some d =>
      let (ds, r) := takeDigits rest
      (d :: ds, r)
    | none => ([], c :: rest)

/-- Value of a digit list. -/
def digitsToNat (ds : List Nat) : Nat := ds.foldl (fun a d => a * 10 + d) 0

/-- JSON string body (after the opening quote): strict mode, standard
escapes; raw control characters are rejected; `\u` yields the code point
(surrogate-pair combination is not modelled). -/
def parseJString : List Char → List Char → Option (String × List Char)
  | _, [] => none
  | acc, c :: rest =>
    if c = dq then some (String.mk acc.reverse, rest)
    else if c = Char.ofNat 92 then
      match rest with
      | [] => none
      | e :: rest2 =>
        if e = dq then parseJString (dq :: acc) rest2
        else if e = Char.ofNat 92 then parseJString (Char.ofNat 92 :: acc) rest2
        else if e = '/' then parseJString ('/' :: acc) rest2
        else if e = 'b' then parseJString (Char.ofNat 8 :: acc) rest2
        else if e = 'f' then parseJString (Char.ofNat 12 :: acc) rest2
        else if e = 'n' then parseJString ('\n' :: acc) rest2
        else if e = 'r' then parseJString ('\r' :: acc) rest2
        else if e = 't' then parseJString ('\t' :: acc) rest2
        else if e = 'u' then
          match rest2 with
          | h1 :: h2 :: h3 :: h4 :: rest3 =>
            match hexVal h1, hexVal h2, hexVal h3, hexVal h4 with
            | some a, some b, some c', some d =>
              parseJString (Char.ofNat (((a * 16 + b) * 16 + c') * 16 + d) :: acc) rest3
            | _, _, _, _ => none
          | _ => none
        else none
    else if c.toNat < 32 then none
    else parseJString (c :: acc) rest

/-- JSON number token (`json.decoder.NUMBER_RE`): longest valid prefix;
`int` when there is neither fraction nor exponent, else `float`. -/
def parseNumber (l : List Char) : Option (Json × List Char) :=
  let (neg, l1) : Bool × List Char :=
    match l with
    | '-' :: r => (true, r)
    | _ => (false, l)
  match l1 with
  | [] => none
  | c :: r =>
    match digitVal c with
    | none => none
    | some d0 =>
      let (ipDigits, r2) : List Nat × List Char :=
        if c = '0' then ([0], r)
        else
          let (ds, rr) := takeDigits r
          (d0 :: ds, rr)
      let ip : Nat := digitsToNat ipDigits
      let (fracDigits, r3) : List Nat × List Char :=
        match r2 with
        | '.' :: rf =>
          let (fs, rr) := takeDigits rf
          if fs.isEmpty then ([], r2) else (fs, rr)
        | _ => ([], r2)
      let hasFrac : Bool := !fracDigits.isEmpty
      let (expPart, r4) : Option Int × List Char :=
        match r3 with
        | e :: re =>
          if e = 'e' ∨ e = 'E' then
            let (esign, re2) : Bool × List Char :=
              match re with
              | '-' :: rr => (true, rr)
              | '+' :: rr => (false, rr)
              | _ => (false, re)
            let (es, rr) := takeDigits re2
            if es.isEmpty then (none, r3)
            else (some (if esign then -(digitsToNat es : Int) else (digitsToNat es : Int)), rr)
          else (none, r3)
        | [] => (none, r3)
      let sgn : Int := if neg then -1 else 1
      if !hasFrac ∧ expPart.isNone then
        some (.int (sgn * ip), r4)
      else
        let k : Nat := fracDigits.length
        let mant : Int := (ip * 10 ^ k + digitsToNat fracDigits : Nat)
        let e : Int := (expPart.getD 0) - k
        if 0 ≤ e then
          some (.float ⟨sgn * mant * pow10 e.toNat, 0⟩, r4)
        else
          some (.float ⟨sgn * mant, (-e).toNat⟩, r4)

/-- `dict` insertion: a duplicate key overwrites the value in place,
a new key is appended. -/
def addField (fields : List (String × Json)) (k : String) (v : Json) :
    List (String × Json) :=
  if fields.any (fun kv => kv.1 = k) then
    fields.map (fun kv => if kv.1 = k then (k, v) else kv)
  else fields ++ [(k, v)]

mutual

/-- One JSON value, after optional whitespace. -/
def parseValue : Nat → List Char → Option (Json × List Char)
  | 0, _ => none
  | fuel + 1, l =>
    match l.dropWhile isJsonWs with
    | [] => none
    | c :: rest =>
      if c = dq then
        match parseJString [] rest with
        | some (s, r) => some (.str s, r)
        | none => none
      else if c = lbrace then
        match rest.dropWhile isJsonWs with
        | [] => none
        | d :: r2 =>
          if d = rbrace then some (.obj [], r2)
          else parseMember fuel [] (d :: r2)
      else if c = '[' then
        match rest.dropWhile isJsonWs with
        | [] => none
        | d :: r2 =>
          if d = ']' then some (.arr [], r2)
          else
            match parseValue fuel (d :: r2) with
            | some (v, r3) => parseArrTail fuel [v] r3
            | none => none
      else if startsWithL ['t', 'r', 'u', 'e'] (c :: rest) then
        some (.bool true, (c :: rest).drop 4)
      else if startsWithL ['f', 'a', 'l', 's', 'e'] (c :: rest) then
        some (.bool false, (c :: rest).drop 5)
      else if startsWithL ['n', 'u', 'l', 'l'] (c :: rest) then
        some (.null, (c :: rest).drop 4)
      else parseNumber (c :: rest)

/-- Array continuation: `,` and another item, or `]`. -/
def parseArrTail : Nat → List Json → List Char → Option (Json × List Char)
  | 0, _, _ => none
  | fuel + 1, acc, l =>
    match l.dropWhile isJsonWs with
    | [] => none
    | c :: rest =>
      if c = ']' then some (.arr acc.reverse, rest)
      else if c = ',' then
        match parseValue fuel rest with
        | some (v, r) => parseArrTail fuel (v :: acc) r
        | none => none
      else none

/-- One `"key": value` member, starting at the key's opening quote. -/
def parseMember : Nat → List (String × Json) → List Char → Option (Json × List Char)
  | 0, _, _ => none
  | fuel + 1, acc, l =>
    match l with
    | [] => none
    | c :: rest =>
      if c = dq then
        match parseJString [] rest with
        | some (k, r1) =>
          match r1.dropWhile isJsonWs with
          | [] => none
          | d :: r3 =>
            if d = ':' then
              match parseValue fuel r3 with
              | some (v, r4) => parseObjTail fuel (addField acc k v) r4
              | none => none
            else none
        | none => none
      else none

/-- Object continuation: `,` and another member, or `}`. -/
def parseObjTail : Nat → List (String × Json) → List Char → Option (Json × List Char)
  | 0, _, _ => none
  | fuel + 1, acc, l =>
    match l.dropWhile isJsonWs with
    | [] => none
    | c :: rest =>
      if c = rbrace then some (.obj acc, rest)
      else if c = ',' then parseMember fuel acc (rest.dropWhile isJsonWs)
      else none

end

/-- `json.loads` on a character list: one value, then only whitespace. -/
def jsonLoadsL (l : List Char) : Option Json :=
  match parseValue (l.length + 1) l with
  | some (v, rest) => if (rest.dropWhile isJsonWs).isEmpty then some v else none
  | none => none

/-- `json.loads`. -/
def jsonLoads (s : String) : Option Json := jsonLoadsL s.data

example : jsonLoads "123" = some (.int 123) := rfl
example : jsonLoads " -4.50 " = some (.float ⟨-450, 2⟩) := rfl
example : jsonLoads "铁" = none := rfl
example : jsonLoads "[1, [true, null]]" =
    some (.arr [.int 1, .arr [.bool true, .null]]) := rfl
example : jsonLoads "\x7b\"a\": 1, \"a\": 2\x7d" = some (.obj [("a", .int 2)]) := rfl
example : jsonLoads "\x7b\"query\": \"SELECT 1\"\x7d" =
    some (.obj [("query", .str "SELECT 1")]) := rfl
example : jsonLoads "01" = none := rfl
example : jsonLoads "1." = none := rfl
example : jsonLoads "1e3" = some (.float ⟨1000, 0⟩) := rfl

/-! ## `evaluator.extract_json_from_response`

The source tries, in order: two fenced-code-block regexes (strict parse of
the block body, then a lenient repair: single quotes to double quotes and
`None` to `null`); three bracket-delimited `query`-object regexes (parse
of the repaired match); and finally a parse of the whole text. Each
concrete regular expression is hand-compiled below into a leftmost-match
search function with the same semantics (lazy groups stop at the first
viable endpoint; a failed position falls through to the next start
position). -/

/-- The lenient repair applied to candidate JSON text:
`.replace("'", '"').replace("None", "null")`. -/
def pyRepairJson (l : List Char) : List Char := replaceNone (replaceChar l sq dq)

/-- Opening tag of the first fenced pattern. -/
def fenceJsonPat : List Char := [btick, btick, btick, 'j', 's', 'o', 'n']

/-- A code fence. -/
def fencePat : List Char := [btick, btick, btick]

/-- Search for `tag ... \x60\x60\x60` (the fenced-block regexes with lazy
body): body between the first occurrence of `tag` and the next fence,
stripped. The regex's two greedy `\s*` only trim whitespace that
`.strip()` removes anyway. -/
def fencedContent (tag : List Char) (l : List Char) : Option (List Char) :=
  match dropAfterFirst tag l with
  | some rest =>
    match takeBeforeFirst fencePat rest with
    | some content => some (pyStrip content)
    | none => none
  | none => none

/-- One fenced-block strategy: strict parse, then repaired parse. -/
def fencedStrategy (tag : List Char) (l : List Char) : Option Json :=
  match fencedContent tag l with
  | some content =>
    match jsonLoadsL content with
    | some v => some v
    | none => jsonLoadsL (pyRepairJson content)
  | none => none

/-- Is this character one of the two quote characters of `['\x22]`? -/
def isQuoteC (c : Char) : Bool := c = sq || c = dq

/-- The literal `query`. -/
def qPat : List Char := ['q', 'u', 'e', 'r', 'y']

/-- Characters up to and including the first `\x7d` (the lazy `.*?\x7d`
with `re.DOTALL`), or `none` if there is no closing brace. -/
def upToBrace : List Char → Option (List Char)
  | [] => none
  | c :: rest =>
    if c = rbrace then some [c]
    else (upToBrace rest).map (fun t => c :: t)

/-- Characters up to the first quote character of either kind (the lazy
`.*?` of `['\x22].*?['\x22]` under `re.DOTALL`), together with that quote
and the remainder. -/
def spanToQuote : List Char → Option (List Char × Char × List Char)
  | [] => none
  | c :: rest =>
    if isQuoteC c then some ([], c, rest)
    else (spanToQuote rest).map (fun p => (c :: p.1, p.2.1, p.2.2))

/-- The `(?:null|None|['\x22].*?['\x22]).*?\x7d` part of the first
fallback regex, starting after the greedy `\s*`: the matched value
followed by everything up to and including the first closing brace. The
three value alternatives start with distinct characters, so the
alternation needs no interleaved backtracking; if no closing brace
follows the first viable string end, none follows a later one, so a
single lazy endpoint is faithful. -/
def b1ValueTail (r3 : List Char) : Option (List Char) :=
  if startsWithL ['n', 'u', 'l', 'l'] r3 then
    match upToBrace (r3.drop 4) with
    | some t => some (['n', 'u', 'l', 'l'] ++ t)
    | none => none
  else if startsWithL ['N', 'o', 'n', 'e'] r3 then
    match upToBrace (r3.drop 4) with
    | some t => some (['N', 'o', 'n', 'e'] ++ t)
    | none => none
  else
    match r3 with
    | q1 :: r4 =>
      if isQuoteC q1 then
        match spanToQuote r4 with
        | some (inner, q2, r5) =>
          match upToBrace r5 with
          | some t => some (q1 :: (inner ++ q2 :: t))
          | none => none
        | none => none
      else none
    | [] => none

/-- The `(?:null|"[^"]*")\x7d` part of the second fallback regex and the
`(?:null|None|'[^']*')\x7d` part of the third (quote character `qc`;
`allowNone` is true exactly for the third, whose alternation also accepts
the literal `None`), starting after the greedy `\s*`. The alternatives
start with distinct characters (`n`, `N`, a quote), so trying each at
most once is faithful to the regex engine's backtracking. -/
def bStrictValueTail (qc : Char) (allowNone : Bool) (r3 : List Char) :
    Option (List Char) :=
  if startsWithL ['n', 'u', 'l', 'l'] r3 then
    match r3.drop 4 with
    | b :: _ => if b = rbrace then some ['n', 'u', 'l', 'l', b] else none
    | [] => none
  else if allowNone && startsWithL ['N', 'o', 'n', 'e'] r3 then
    match r3.drop 4 with
    | b :: _ => if b = rbrace then some (['N', 'o', 'n', 'e'] ++ [b]) else none
    | [] => none
  else
    match r3 with
    | q1 :: r4 =>
      if q1 = qc then
        match r4.dropWhile (fun c => c ≠ qc) with
        | q2 :: r5 =>
          match r5 with
          | b :: _ =>
            if b = rbrace then
              some (q1 :: (r4.takeWhile (fun c => c ≠ qc) ++ [q2, b]))
            else none
          | [] => none
        | [] => none
      else none
    | [] => none

/-- Match of the first fallback regex
`(\x7b['\x22]query['\x22]:\s*(?:null|None|['\x22].*?['\x22]).*?\x7d)`
anchored at the start of `l`, returning the matched text. -/
def matchB1At (l : List Char) : Option (List Char) :=
  match l with
  | c0 :: c1 :: rest =>
    if c0 = lbrace ∧ isQuoteC c1 ∧ startsWithL qPat rest then
      match rest.drop 5 with
      | c2 :: c3 :: rest2 =>
        if isQuoteC c2 ∧ c3 = ':' then
          match b1ValueTail (rest2.dropWhile isPySpace) with
          | some vt =>
            some (c0 :: c1 :: (qPat ++ [c2, c3] ++ rest2.takeWhile isPySpace ++ vt))
          | none => none
        else none
      | _ => none
    else none
  | _ => none

/-- Match of the second fallback regex
`(\x7b"query":\s*(?:null|"[^"]*")\x7d)` (`qc = \x22`, `allowNone = false`)
and the third, `(\x7b'query':\s*(?:null|None|'[^']*')\x7d)` (`qc` the
single quote, `allowNone = true`), anchored at the start of `l`. -/
def matchBStrictAt (qc : Char) (allowNone : Bool) (l : List Char) :
    Option (List Char) :=
  match l with
  | c0 :: c1 :: rest =>
    if c0 = lbrace ∧ c1 = qc ∧ startsWithL qPat rest then
      match rest.drop 5 with
      | c2 :: c3 :: rest2 =>
        if c2 = qc ∧ c3 = ':' then
          match bStrictValueTail qc allowNone (rest2.dropWhile isPySpace) with
          | some vt =>
            some (c0 :: c1 :: (qPat ++ [c2, c3] ++ rest2.takeWhile isPySpace ++ vt))
          | none => none
        else none
      | _ => none
    else none
  | _ => none

/-- Leftmost match: try the positional matcher at each start position. -/
def searchLeftmost (m : List Char → Option (List Char)) : List Char → Option (List Char)
  | [] => m []
  | c :: t =>
    match m (c :: t) with
    | some g => some g
    | none => searchLeftmost m t

/-- One bracket-pattern strategy: search, repair, parse
(`json_str = match.group(1).replace("'", '"').replace("None", "null")`). -/
def patternStrategy (m : List Char → Option (List Char)) (l : List Char) : Option Json :=
  match searchLeftmost m l with
  | some g => jsonLoadsL (pyRepairJson g)
  | none => none

/-- `evaluator.extract_json_from_response`: fenced-block strategies, then
the three bracket-pattern strategies, then a parse of the whole text,
else `None`. -/
def extract_json_from_response (response : String) : Option Json :=
  let l := response.data
  match fencedStrategy fenceJsonPat l with
  | some v => some v
  | none =>
  match fencedStrategy fencePat l with
  | some v => some v
  | none =>
  match patternStrategy matchB1At l with
  | some v => some v
  | none =>
  match patternStrategy (matchBStrictAt dq false) l with
  | some v => some v
  | none =>
  match patternStrategy (matchBStrictAt sq true) l with
  | some v => some v
  | none => jsonLoadsL l

/-- `\x60\x60\x60json ... \x60\x60\x60` fenced round-trip (spec §8). -/
example :
    extract_json_from_response
      (String.mk (fenceJsonPat ++ '\n' :: (("\x7b\"query\": \"SELECT 1\"\x7d\n").data
        ++ fencePat))) =
    some (.obj [("query", .str "SELECT 1")]) := rfl

/-- Lenient single-quote/None repair on a bare pattern (spec §8). -/
example :
    extract_json_from_response (String.mk (lbrace :: sq :: ("query".data
      ++ sq :: ':' :: " None".data ++ [rbrace]))) =
    some (.obj [("query", .null)]) := rfl

example : extract_json_from_response "The weather is nice today." = none := rfl

example : extract_json_from_response "123" = some (.int 123) := rfl

/-- The third fallback regex accepts the `None` value alternative. -/
example :
    patternStrategy (matchBStrictAt sq true)
      (lbrace :: sq :: ("query".data ++ sq :: ':' :: (" None".data ++ [rbrace])))
      = some (.obj [("query", .null)]) := rfl

/-- The second fallback regex has no `None` alternative. -/
example :
    patternStrategy (matchBStrictAt dq false)
      (lbrace :: dq :: ("query".data ++ dq :: ':' :: (" None".data ++ [rbrace])))
      = none := rfl

/-! ## `testcases.TestCase`, `testcases.TestResult` -/

/-- `testcases.TestCase` (the `file_path` provenance field is omitted:
it is only used for diagnostics). -/
structure TestCase where
  name : String
  prompt : String
  sql : Option String
  schema_output : Option (List String)

/-- `TestCase.expects_no_answer`: `not self.sql or not self.sql.strip()`. -/
def TestCase.expects_no_answer (tc : TestCase) : Bool :=
  match tc.sql with
  | none => true
  | some s => (pyStrip s.data).isEmpty

/-- Python truthiness of the optional `sql` string (`if test_case.sql:`). -/
def sqlTruthy : Option String → Bool
  | none => false
  | some s => !s.data.isEmpty

/-- Python truthiness of the optional `schema_output` list. -/
def schemaTruthy : Option (List String) → Bool
  | some (_ :: _) => true
  | _ => false

/-- Python truthiness of an optional `bytes_processed` number. -/
def bytesTruthy : Option Int → Bool
  | some n => decide (n ≠ 0)
  | none => false

/-- `testcases.TestResult` (the wall-clock `time_seconds` field is not
modelled: no claim concerns it). -/
structure TestResult where
  name : String
  total_tokens : Int
  is_correct : Bool
  has_answer : Option Bool
  error : Option String
  agent_sql : Option Json
  expected_data : Option (List Row)
  actual_data : Option (List Row)
  final_prompt : Option String
  agent_response : Option String
  bytes_processed : Option Int

/-! ## `evaluator.run_single_test`

The two HTTP collaborators are supplied as an environment: what
`execute_sql` returns for the expected SQL and for any agent query value,
and whether each `send_prompt` call returns text and a token count or
raises. The body's `try:` block becomes `evalBody`, an `Except` value
carrying, on the raising path, the exception message together with the
local variables as already assigned (Python's `except` reads exactly
those); `run_single_test` is the surrounding handler and is total — no
exception propagates to the caller. -/

/-- What a call to `execute_sql` returned: a dict containing `"error"`,
or the success body (`data`, optional `bytes_processed`). -/
inductive SqlOutcome where
  | err (msg : String)
  | ok (data : List Row) (bytes : Option Int)

/-- What a call to `AgentClient.send_prompt` did: raised, or returned
response text and a token count (the returned message history only feeds
the next prompt and is not modelled separately). -/
inductive PromptOutcome where
  | raised (msg : String)
  | ok (text : String) (tokens : Int)

/-- Environment of one `run_single_test` call. -/
structure EvalEnv where
  expectedSql : SqlOutcome
  agentSql : Json → SqlOutcome
  firstTurn : PromptOutcome
  secondTurn : PromptOutcome

/-- The local variables of `run_single_test`, with their initial values. -/
structure EvalSt where
  total_tokens : Int := 0
  total_bytes : Int := 0
  has_answer : Option Bool := none
  is_correct : Bool := false
  agent_sql : Option Json := none
  expected_data : Option (List Row) := none
  actual_data : Option (List Row) := none
  error : Option String := none
  final_prompt : Option String := none
  agent_response : Option String := none
  columns : List String := []

/-- `schema_hint = ", ".join(columns) if columns else "unknown"`. -/
def schemaHint (columns : List String) : String :=
  if columns.isEmpty then "unknown" else String.intercalate ", " columns

/-- The second, deterministic prompt asking for `\x7b'query': ...\x7d`. -/
def finalPromptText (hint : String) : String :=
  "Based on your previous analysis, provide the final SQL query that answers the original question.\n\nFormat your answer as a JSON on this format: "
    ++ String.mk (lbrace :: sq :: ("query".data ++ sq :: ':' :: ' ' :: sq ::
        ("YOUR_SQL_QUERY_HERE".data ++ [sq, rbrace])))
    ++ "\nOutput schema of the query should have these columns: " ++ hint
    ++ "\n\nIf you cannot answer, respond with: "
    ++ String.mk (lbrace :: sq :: ("query".data ++ sq :: ':' :: (" null".data ++ [rbrace])))

/-- Substring test (Python `"query" in s` for a string `s`). -/
def containsSub (pat l : List Char) : Bool := (dropAfterFirst pat l).isSome

/-- `json_data.get("query")` (only called on a truthy value): on a dict,
the value or Python `None` when missing; on any other truthy value an
`AttributeError` is raised. -/
def getQueryAttr : Json → Except String Json
  | .obj fields =>
    .ok (match findField "query" fields with
         | some q => q
         | none => .null)
  | _ => .error "AttributeError: no attribute get"

/-- `query_value is None or query_value == "" or query_value == "null"`. -/
def nullishQuery (qv : Json) : Bool :=
  (match qv with | .null => true | _ => false)
    || pyEq qv (.str "") || pyEq qv (.str "null")

/-- `json_data and "query" in json_data and json_data["query"]`, with
Python's short-circuiting and exceptions: `ok (some qv)` when the whole
condition is truthy (`qv` the query value), `ok none` when it is falsy,
`error` when `in` or the indexing raises a `TypeError`. -/
def queryCond : Option Json → Except String (Option Json)
  | none => .ok none
  | some v =>
    if jsonTruthy v then
      match v with
      | .obj fields =>
        match findField "query" fields with
        | none => .ok none
        | some qv => if jsonTruthy qv then .ok (some qv) else .ok none
      | .str s =>
        if containsSub qPat s.data then .error "TypeError: string indices"
        else .ok none
      | .arr items =>
        if items.any (fun x => pyEq x (.str "query")) then
          .error "TypeError: list indices"
        else .ok none
      | _ => .error "TypeError: argument of type is not iterable"
    else .ok none

/-- Step 1 of `run_single_test`: execute the expected SQL first to get
columns and expected data (or take the columns from `schema_output`). -/
def step1St (tc : TestCase) (outcome : SqlOutcome) : EvalSt :=
  let st0 : EvalSt := {}
  if sqlTruthy tc.sql then
    match outcome with
    | .err m => { st0 with error := some ("Expected SQL error: " ++ m) }
    | .ok data bytes =>
      let stA := { st0 with expected_data := some data }
      let stB :=
        if bytesTruthy bytes then
          { stA with total_bytes := stA.total_bytes + bytes.getD 0 }
        else stA
      if data.isEmpty then stB
      else { stB with columns := (data.headD []).map Prod.fst }
  else if schemaTruthy tc.schema_output then
    { st0 with columns := tc.schema_output.getD [] }
  else st0

/-- The `try:` block of `run_single_test`. -/
def evalBody (tc : TestCase) (env : EvalEnv) : Except (String × EvalSt) EvalSt :=
  -- Step 1: execute expected SQL first to get columns and expected data
  let st1 : EvalSt := step1St tc env.expectedSql
  -- Step 2: send the prompt to the agent
  match env.firstTurn with
  | .raised m => .error (m, st1)
  | .ok _ k1 =>
    let st2 := { st1 with total_tokens := st1.total_tokens + k1 }
    -- Step 3: ask for the final query in JSON format
    let st3 := { st2 with final_prompt := some (finalPromptText (schemaHint st2.columns)) }
    match env.secondTurn with
    | .raised m => .error (m, st3)
    | .ok t2 k2 =>
      let st4 := { st3 with
        total_tokens := st3.total_tokens + k2
        agent_response := some t2 }
      let json_data := extract_json_from_response t2
      if tc.expects_no_answer then
        match json_data with
        | some v =>
          if jsonTruthy v then
            match getQueryAttr v with
            | .error m => .error (m, st4)
            | .ok qv =>
              if nullishQuery qv then
                .ok { st4 with has_answer := none, is_correct := true }
              else
                .ok { st4 with
                  has_answer := some true
                  agent_sql := some qv
                  is_correct := false
                  error := some "Agent provided an answer when none was expected" }
          else .ok { st4 with has_answer := none, is_correct := true }
        | none => .ok { st4 with has_answer := none, is_correct := true }
      else
        match queryCond json_data with
        | .error m => .error (m, st4)
        | .ok none =>
          .ok { st4 with
            has_answer := some false
            error := some "Could not extract JSON query from agent response" }
        | .ok (some qv) =>
          let st5 := { st4 with has_answer := some true, agent_sql := some qv }
          match st5.expected_data with
          | none => .ok st5
          | some ed =>
            match env.agentSql qv with
            | .err m => .ok { st5 with error := some ("Agent SQL error: " ++ m) }
            | .ok adata bytes =>
              let st6 := { st5 with actual_data := some adata }
              let st7 :=
                if bytesTruthy bytes then
                  { st6 with total_bytes := st6.total_bytes + bytes.getD 0 }
                else st6
              .ok { st7 with is_correct := compare_results ed adata }

/-- `evaluator.run_single_test`: the `try/except` handler around
`evalBody` plus the construction of the returned `TestResult`. Total: a
raised exception becomes `error := str(e)` and never propagates. -/
def run_single_test (tc : TestCase) (env : EvalEnv) : TestResult :=
  let final : EvalSt :=
    match evalBody tc env with
    | .ok st => st
    | .error (m, st) => { st with error := some m }
  { name := tc.name
    total_tokens := final.total_tokens
    is_correct := final.is_correct
    has_answer := final.has_answer
    error := final.error
    agent_sql := final.agent_sql
    expected_data := final.expected_data
    actual_data := final.actual_data
    final_prompt := final.final_prompt
    agent_response := final.agent_response
    bytes_processed := if final.total_bytes > 0 then some final.total_bytes else none }

/-! ## `servers.execute_sql`

The HTTP transport is an environment value: the POST either raised a
transport exception or produced a response with a success flag, body text
and reason phrase. The function's own `try/except` converts every raise —
including `response.json()` or `.get` failing inside the handler — into
the `\x7b"error": ...\x7d` shape, so the model is total. -/

/-- Outcome of the POST to `/execute_sql`. -/
inductive HttpOutcome where
  | raised (msg : String)
  | resp (ok : Bool) (text : String) (reason : String)

/-- The `\x7b"error": ...\x7d` dict. -/
def errObj (v : Json) : Json := .obj [("error", v)]

/-- `servers.execute_sql`. On success the decoded body is returned as-is;
a non-2xx status yields `\x7b"error": detail-or-reason\x7d`; any raise
(transport error, undecodable body, `.get` on a non-dict) is caught and
yields `\x7b"error": str(e)\x7d` (exception messages are modelled by
fixed strings). -/
def execute_sql (env : HttpOutcome) : Json :=
  match env with
  | .raised m => errObj (.str m)
  | .resp ok text reason =>
    if ok then
      match jsonLoads text with
      | some v => v
      | none => errObj (.str "JSONDecodeError")
    else
      if text.data.isEmpty then errObj (.str reason)
      else
        match jsonLoads text with
        | none => errObj (.str "JSONDecodeError")
        | some (.obj fields) =>
          errObj (match findField "detail" fields with
                  | some d => d
                  | none => .str reason)
        | some _ => errObj (.str "AttributeError")

/-! ## `servers.ServerManager` and the `test` command

The supervisor's effects are recorded as an action trace (spawns,
terminates, kills) over an environment fixing what the system looks like:
which ports already answer, which launch artifacts exist, whether each
spawned server's port opens within the bounded `wait_for_server` timeout,
and whether a terminated process exits within the 5-second grace period.
`get_server_config`'s `(None, None, False)` branch re-checks the chat
port, which in a fixed environment is still closed, so that branch (and
`start`'s `return False` without teardown behind it) is unreachable.
The auth-secret file handling has no effect on lifecycle claims and is
not modelled. `sys.exit(1)` from the discovery helpers is the `exited`
outcome; it propagates out of `start()`, so the caller's test loop is
skipped but its `finally` still runs `stop()`. -/

/-- The two supervised servers. -/
inductive Server where
  | chat
  | fastapi
deriving Repr, DecidableEq

/-- A process-lifecycle action. -/
inductive PAction where
  | spawn (s : Server)
  | term (s : Server)
  | kill (s : Server)
deriving Repr, DecidableEq

/-- Environment of one `start()`/`stop()` lifecycle. -/
structure SrvEnv where
  fastapiPortOpen : Bool
  chatPortOpen : Bool
  fastapiMainExists : Bool
  binaryExists : Bool
  devIndexExists : Bool
  fastapiWaitOk : Bool
  chatWaitOk : Bool
  chatExitsInTime : Bool
  fastapiExitsInTime : Bool

/-- `ServerManager`'s own state: which processes it spawned
(`chat_process`/`fastapi_process` not `None`) and which servers it found
already running (`*_was_running`). -/
structure MgrState where
  chatSpawned : Bool := false
  fastapiSpawned : Bool := false
  chatWasRunning : Bool := false
  fastapiWasRunning : Bool := false

/-- `ServerManager.stop()`: for the chat then the FastAPI process, if this
supervisor spawned it and it was not found already running, terminate it,
and kill it if it does not exit within the 5-second wait. -/
def stopActions (env : SrvEnv) (st : MgrState) : List PAction :=
  (if st.chatSpawned ∧ ¬ st.chatWasRunning then
    .term .chat :: (if env.chatExitsInTime then [] else [.kill .chat])
  else []) ++
  (if st.fastapiSpawned ∧ ¬ st.fastapiWasRunning then
    .term .fastapi :: (if env.fastapiExitsInTime then [] else [.kill .fastapi])
  else [])

/-- How `start()` ended: a normal boolean return, or `sys.exit(1)` raised
by a discovery helper (`get_server_config` / `get_fastapi_main_path`). -/
inductive StartResult where
  | ret (success : Bool)
  | exited
deriving Repr, DecidableEq

/-- The chat-server half of `ServerManager.start()` (reached after the
FastAPI half succeeded): skip if the port already answers, else locate the
binary or the dev entrypoint (else `sys.exit(1)`), spawn, and poll the
port; on timeout call `self.stop()` and return `False`. -/
def startChat (env : SrvEnv) (st : MgrState) (acts : List PAction) :
    StartResult × MgrState × List PAction :=
  if env.chatPortOpen then (.ret true, { st with chatWasRunning := true }, acts)
  else if env.binaryExists ∨ env.devIndexExists then
    let st1 := { st with chatSpawned := true }
    let acts1 := acts ++ [PAction.spawn .chat]
    if env.chatWaitOk then (.ret true, st1, acts1)
    else (.ret false, st1, acts1 ++ stopActions env st1)
  else (.exited, st, acts)

/-- `ServerManager.start()`: FastAPI half (skip if the port answers, else
locate `main.py` or `sys.exit(1)`, spawn, poll; on timeout `self.stop()`
and return `False`), then the chat half. -/
def ServerManager.start (env : SrvEnv) : StartResult × MgrState × List PAction :=
  let st0 : MgrState := {}
  if env.fastapiPortOpen then startChat env { st0 with fastapiWasRunning := true } []
  else if env.fastapiMainExists then
    let st1 := { st0 with fastapiSpawned := true }
    let acts := [PAction.spawn .fastapi]
    if env.fastapiWaitOk then startChat env st1 acts
    else (.ret false, st1, acts ++ stopActions env st1)
  else (.exited, st0, [])

/-- The `test` command around the loop (`commands/test/__init__.py`): after
test cases are loaded and non-empty, `server.start()` is called — its
boolean result is discarded — then `run_single_test` runs for every case;
the `finally` always runs `server.stop()`. Returns how many test cases
are evaluated and the full action trace. `sys.exit` from inside `start()`
propagates past the loop but still triggers the `finally`. -/
def naoTestRun (env : SrvEnv) (numCases : Nat) : Nat × List PAction :=
  match ServerManager.start env with
  | (.exited, st, acts) => (0, acts ++ stopActions env st)
  | (.ret _, st, acts) => (numCases, acts ++ stopActions env st)

/-! ## Claims -/

/-- C1 (code bug). The environment: the FastAPI port is closed and never
opens within the bounded wait after the spawn; a chat binary exists; one
test case is loaded. `ServerManager.start()` does return failure and does
tear down the process it spawned — but `test()` discards the returned
boolean, so the loaded test case is still evaluated (count 1, not 0): the
run does not abort before testing begins, contradicting the claim's "no
test case is evaluated". -/
theorem C1_startup_timeout_keeps_testing :
    (ServerManager.start ⟨false, false, true, true, false, false, true, true, true⟩).1
        = .ret false
    ∧ (ServerManager.start ⟨false, false, true, true, false, false, true, true, true⟩).2.2
        = [.spawn .fastapi, .term .fastapi]
    ∧ (naoTestRun ⟨false, false, true, true, false, false, true, true, true⟩ 1).1 = 1 := by
  decide

/-- C7: `compare_results` returns `false` whenever the two row sequences
have different lengths (the length check is the first statement; nothing
else is inspected). -/
theorem C7_length_mismatch_unequal (expected actual : List Row)
    (h : expected.length ≠ actual.length) : compare_results expected actual = false := by
  unfold compare_results
  simp [h]

/-- Witness for C7 at a concrete input. -/
theorem C7_length_mismatch_unequal_witness :
    ([[("a", Json.int 1)]] : List Row).length ≠ ([] : List Row).length
    ∧ compare_results [[("a", Json.int 1)]] [] = false :=
  ⟨by decide, C7_length_mismatch_unequal [[("a", Json.int 1)]] [] (by decide)⟩

/-- C9: teardown terminates or kills only processes the supervisor itself
spawned — over every combination of environment flags, a server whose
port already answered when `start()` ran receives no terminate and no
kill, neither from the failure-path `stop()` inside `start()` nor from
the final `stop()`. -/
theorem C9_stop_only_self_spawned :
    ∀ env : SrvEnv,
      (env.chatPortOpen = true →
        ∀ a ∈ (ServerManager.start env).2.2
            ++ stopActions env (ServerManager.start env).2.1,
          a ≠ .term .chat ∧ a ≠ .kill .chat)
      ∧ (env.fastapiPortOpen = true →
        ∀ a ∈ (ServerManager.start env).2.2
            ++ stopActions env (ServerManager.start env).2.1,
          a ≠ .term .fastapi ∧ a ≠ .kill .fastapi) := by
  intro env
  obtain ⟨f1, f2, f3, f4, f5, f6, f7, f8, f9⟩ := env
  revert f1 f2 f3 f4 f5 f6 f7 f8 f9
  decide

/-- Witness for C9: both servers found already running. -/
theorem C9_stop_only_self_spawned_witness :
    (⟨true, true, true, true, false, true, true, true, true⟩ : SrvEnv).chatPortOpen = true
    ∧ ∀ a ∈ (ServerManager.start
          ⟨true, true, true, true, false, true, true, true, true⟩).2.2
        ++ stopActions ⟨true, true, true, true, false, true, true, true, true⟩
          (ServerManager.start
            ⟨true, true, true, true, false, true, true, true, true⟩).2.1,
        a ≠ .term .chat ∧ a ≠ .kill .chat :=
  ⟨rfl, (C9_stop_only_self_spawned
    ⟨true, true, true, true, false, true, true, true, true⟩).1 rfl⟩

/-- C8: `execute_sql` never raises (it is total); a transport exception
becomes `\x7b"error": str(e)\x7d`; every non-2xx response becomes an
`\x7b"error": ...\x7d` dict; and the result is always either an error
dict or the decoded success body. -/
theorem C8_execute_sql_error_shape :
    ∀ env : HttpOutcome,
      (∀ m, env = .raised m → execute_sql env = errObj (.str m))
      ∧ (∀ text reason, env = .resp false text reason →
          ∃ v, execute_sql env = errObj v)
      ∧ ((∃ v, execute_sql env = errObj v)
          ∨ ∃ text reason, env = .resp true text reason
              ∧ jsonLoads text = some (execute_sql env)) := by
  intro env
  have herr : ∀ text reason, (∃ v,
      execute_sql (.resp false text reason) = errObj v) := by
    intro text reason
    unfold execute_sql
    by_cases he : text.data.isEmpty
    · exact ⟨.str reason, by simp [he]⟩
    · simp only [he, Bool.false_eq_true, if_false]
      rcases hj : jsonLoads text with _ | v
      · exact ⟨.str "JSONDecodeError", by simp⟩
      · rcases v with _ | b | n | f | s | items | fields <;> simp
  rcases env with m | ⟨ok, text, reason⟩
  · refine ⟨?_, ?_, ?_⟩
    · intro m' h
      injection h with h'
      subst h'
      rfl
    · intro _ _ h
      exact HttpOutcome.noConfusion h
    · exact Or.inl ⟨.str m, rfl⟩
  · refine ⟨?_, ?_, ?_⟩
    · intro m' h
      exact HttpOutcome.noConfusion h
    · intro text' reason' h
      injection h with h1 h2 h3
      subst h2 h3
      subst h1
      exact herr text reason
    · cases ok with
      | false => exact Or.inl (herr text reason)
      | true =>
        rcases hj : jsonLoads text with _ | v
        · exact Or.inl ⟨.str "JSONDecodeError", by unfold execute_sql; simp [hj]⟩
        · exact Or.inr ⟨text, reason, rfl, by unfold execute_sql; simp [hj]⟩

/-- Witness for C8: a refused connection yields the error dict. -/
theorem C8_execute_sql_error_shape_witness :
    execute_sql (.raised "Connection refused") = errObj (.str "Connection refused") :=
  (C8_execute_sql_error_shape (.raised "Connection refused")).1 "Connection refused" rfl

/-- After step 1, `is_correct` is still false. -/
theorem step1St_is_correct (tc : TestCase) (o : SqlOutcome) :
    (step1St tc o).is_correct = false := by
  unfold step1St
  rcases o with m | ⟨data, bytes⟩ <;>
    simp [apply_ite EvalSt.is_correct]

/-- After step 1, `expected_data` is set only to the data of a successful
expected-SQL execution. -/
theorem step1St_expected_data (tc : TestCase) (o : SqlOutcome) (d : List Row)
    (h : (step1St tc o).expected_data = some d) : ∃ b, o = .ok d b := by
  unfold step1St at h
  rcases o with m | ⟨data, bytes⟩
  · exfalso
    revert h
    simp [apply_ite EvalSt.expected_data]
  · refine ⟨bytes, ?_⟩
    revert h
    simp [apply_ite EvalSt.expected_data]

/-- Every state carried out of `evalBody` on the raising path still has
`is_correct = false`: exceptions can only occur before either assignment
of `is_correct = True`/`compare_results(...)`. -/
theorem evalBody_error_is_correct_false (tc : TestCase) (env : EvalEnv)
    (m : String) (st : EvalSt) (h : evalBody tc env = .error (m, st)) :
    st.is_correct = false := by
  obtain ⟨esql, asql, ft, stt⟩ := env
  simp only [evalBody] at h
  cases ft with
  | raised m1 =>
    injection h with h1
    injection h1 with hm hst
    subst hst
    exact step1St_is_correct _ _
  | ok t1 k1 =>
    cases stt with
    | raised m2 =>
      injection h with h1
      injection h1 with hm hst
      subst hst
      exact step1St_is_correct _ _
    | ok t2 k2 =>
      by_cases hna : tc.expects_no_answer = true
      · rcases hej : extract_json_from_response t2 with _ | v
        · simp only [hna, hej, if_true] at h
          exact Except.noConfusion h
        · simp only [hna, hej, if_true] at h
          by_cases htr : jsonTruthy v = true
          · rcases hga : getQueryAttr v with m3 | qv
            · simp only [htr, hga, if_true] at h
              injection h with h1
              injection h1 with hm hst
              subst hst
              exact step1St_is_correct _ _
            · by_cases hnq : nullishQuery qv = true <;>
                simp only [htr, hga, hnq, if_true, Bool.false_eq_true, if_false] at h <;>
                exact Except.noConfusion h
          · simp only [htr, Bool.false_eq_true, if_false] at h
            exact Except.noConfusion h
      · rcases hqc : queryCond (extract_json_from_response t2) with m3 | oqv
        · simp only [hna, hqc, Bool.false_eq_true, if_false] at h
          injection h with h1
          injection h1 with hm hst
          subst hst
          exact step1St_is_correct _ _
        · rcases oqv with _ | qv
          · simp only [hna, hqc, Bool.false_eq_true, if_false] at h
            exact Except.noConfusion h
          · simp only [hna, hqc, Bool.false_eq_true, if_false] at h
            rcases hed : (step1St tc esql).expected_data with _ | ed
            · simp only [hed] at h
              exact Except.noConfusion h
            · simp only [hed] at h
              rcases has : asql qv with m4 | ⟨ad, ab⟩ <;> simp only [has] at h
              · exact Except.noConfusion h
              · by_cases hbt : bytesTruthy ab = true <;>
                  simp only [hbt, if_true, Bool.false_eq_true, if_false] at h <;>
                  exact Except.noConfusion h

/-- "The extractor found a query object whose query value is null, the
empty string, or the literal string `"null"`" — a missing `query` key
reads as Python `None` through `.get`. -/
def nullishOrMissingQuery (fields : List (String × Json)) : Prop :=
  match findField "query" fields with
  | none => True
  | some qv => qv = .null ∨ qv = .str "" ∨ qv = .str "null"

/-- "The extractor found no query object, or found one whose query value
is null, the empty string, or the literal string `"null"`". -/
def noAnswerExtracted : Option Json → Prop
  | none => True
  | some v => (∀ fs, v ≠ .obj fs) ∨ ∃ fs, v = .obj fs ∧ nullishOrMissingQuery fs

theorem nullishQuery_spec (qv : Json) (h : nullishQuery qv = true) :
    qv = .null ∨ qv = .str "" ∨ qv = .str "null" := by
  rcases qv with _ | b | n | f | s | items | fields
  · exact Or.inl rfl
  all_goals simp_all [nullishQuery, pyEq]

theorem notTruthy_noAnswer (v : Json) (h : jsonTruthy v = false) :
    noAnswerExtracted (some v) := by
  rcases v with _ | b | n | f | s | items | fields
  case obj =>
    rcases fields with _ | ⟨kv, rest⟩
    · exact Or.inr ⟨[], rfl, trivial⟩
    · simp [jsonTruthy] at h
  all_goals exact Or.inl (fun fs hf => Json.noConfusion hf)

/-- C2: `is_correct` can be true only via the two legitimate paths. In the
conclusion, "both SQL executions succeeded" is stated against the
environment (`SqlOutcome.ok`), and the compared data are exactly those
successful executions' results. -/
theorem C2_is_correct_invariant (tc : TestCase) (env : EvalEnv)
    (h : (run_single_test tc env).is_correct = true) :
    (tc.expects_no_answer = true
      ∧ ∃ t, (run_single_test tc env).agent_response = some t
          ∧ noAnswerExtracted (extract_json_from_response t))
    ∨ (tc.expects_no_answer = false
      ∧ ∃ ed eb, env.expectedSql = .ok ed eb
      ∧ ∃ qv ad ab, (run_single_test tc env).agent_sql = some qv
          ∧ env.agentSql qv = .ok ad ab
          ∧ compare_results ed ad = true) := by
  obtain ⟨esql, asql, ft, stt⟩ := env
  unfold run_single_test at h ⊢
  rcases hb : evalBody tc ⟨esql, asql, ft, stt⟩ with ⟨m, stE⟩ | stO
  · rw [hb] at h
    have hf := evalBody_error_is_correct_false tc ⟨esql, asql, ft, stt⟩ m stE hb
    simp only [hf] at h
    exact Bool.noConfusion h
  · rw [hb] at h
    simp only at h ⊢
    simp only [evalBody] at hb
    cases ft with
    | raised m1 => exact Except.noConfusion hb
    | ok t1 k1 =>
      cases stt with
      | raised m2 => exact Except.noConfusion hb
      | ok t2 k2 =>
        by_cases hna : tc.expects_no_answer = true
        · left
          refine ⟨hna, t2, ?_⟩
          rcases hej : extract_json_from_response t2 with _ | v
          · simp only [hna, hej, if_true] at hb
            injection hb with hst
            subst hst
            exact ⟨rfl, trivial⟩
          · simp only [hna, hej, if_true] at hb
            by_cases htr : jsonTruthy v = true
            · rcases hga : getQueryAttr v with m3 | qv
              · simp only [htr, hga, if_true] at hb
                exact Except.noConfusion hb
              · by_cases hnq : nullishQuery qv = true
                · simp only [htr, hga, hnq, if_true] at hb
                  injection hb with hst
                  subst hst
                  refine ⟨rfl, ?_⟩
                  rcases v with _ | b | n | f | s | items | fields
                  · exact Except.noConfusion hga
                  · exact Except.noConfusion hga
                  · exact Except.noConfusion hga
                  · exact Except.noConfusion hga
                  · exact Except.noConfusion hga
                  · exact Except.noConfusion hga
                  · refine Or.inr ⟨fields, rfl, ?_⟩
                    unfold getQueryAttr at hga
                    injection hga with hq
                    unfold nullishOrMissingQuery
                    rcases hff : findField "query" fields with _ | q
                    · trivial
                    · rw [hff] at hq
                      subst hq
                      exact nullishQuery_spec _ hnq
                · simp only [htr, hga, hnq, if_true, Bool.false_eq_true, if_false] at hb
                  injection hb with hst
                  subst hst
                  exact Bool.noConfusion h
            · simp only [htr, Bool.false_eq_true, if_false] at hb
              injection hb with hst
              subst hst
              exact ⟨rfl, notTruthy_noAnswer v (by simpa using htr)⟩
        · right
          rcases hqc : queryCond (extract_json_from_response t2) with m3 | oqv
          · simp only [hna, hqc, Bool.false_eq_true, if_false] at hb
            exact Except.noConfusion hb
          · rcases oqv with _ | qv
            · simp only [hna, hqc, Bool.false_eq_true, if_false] at hb
              injection hb with hst
              subst hst
              have := (step1St_is_correct tc esql).symm.trans h
              exact Bool.noConfusion this
            · simp only [hna, hqc, Bool.false_eq_true, if_false] at hb
              rcases hed : (step1St tc esql).expected_data with _ | ed
              · simp only [hed] at hb
                injection hb with hst
                subst hst
                have := (step1St_is_correct tc esql).symm.trans h
                exact Bool.noConfusion this
              · simp only [hed] at hb
                rcases has : asql qv with m4 | ⟨ad, ab⟩ <;> simp only [has] at hb
                · injection hb with hst
                  subst hst
                  have := (step1St_is_correct tc esql).symm.trans h
                  exact Bool.noConfusion this
                · obtain ⟨eb, hesql⟩ := step1St_expected_data tc esql ed hed
                  by_cases hbt : bytesTruthy ab = true <;>
                    simp only [hbt, if_true, Bool.false_eq_true, if_false] at hb <;>
                    (injection hb with hst
                     subst hst
                     exact ⟨by simpa using hna, ed, eb, hesql, qv, ad, ab, rfl, has, h⟩)

/-- Witness for C2: a test expecting an answer, with matching expected and
agent data, is scored correct through path (b). -/
theorem C2_is_correct_invariant_witness :
    (run_single_test ⟨"t", "p", some "SELECT 1", none⟩
        ⟨.ok [[("id", .int 1)]] none, fun _ => .ok [[("id", .int 1)]] none,
          .ok "" 0, .ok "\x7b\"query\": \"SELECT 1\"\x7d" 0⟩).is_correct = true
    ∧ (((⟨"t", "p", some "SELECT 1", none⟩ : TestCase).expects_no_answer = true
      ∧ ∃ t, (run_single_test ⟨"t", "p", some "SELECT 1", none⟩
          ⟨.ok [[("id", .int 1)]] none, fun _ => .ok [[("id", .int 1)]] none,
            .ok "" 0, .ok "\x7b\"query\": \"SELECT 1\"\x7d" 0⟩).agent_response = some t
          ∧ noAnswerExtracted (extract_json_from_response t))
    ∨ ((⟨"t", "p", some "SELECT 1", none⟩ : TestCase).expects_no_answer = false
      ∧ ∃ ed eb, (⟨.ok [[("id", .int 1)]] none, fun _ => .ok [[("id", .int 1)]] none,
            .ok "" 0, .ok "\x7b\"query\": \"SELECT 1\"\x7d" 0⟩ : EvalEnv).expectedSql
          = .ok ed eb
      ∧ ∃ qv ad ab, (run_single_test ⟨"t", "p", some "SELECT 1", none⟩
            ⟨.ok [[("id", .int 1)]] none, fun _ => .ok [[("id", .int 1)]] none,
              .ok "" 0, .ok "\x7b\"query\": \"SELECT 1\"\x7d" 0⟩).agent_sql = some qv
          ∧ (⟨.ok [[("id", .int 1)]] none, fun _ => .ok [[("id", .int 1)]] none,
              .ok "" 0, .ok "\x7b\"query\": \"SELECT 1\"\x7d" 0⟩ : EvalEnv).agentSql qv
            = .ok ad ab
          ∧ compare_results ed ad = true)) :=
  ⟨rfl, C2_is_correct_invariant ⟨"t", "p", some "SELECT 1", none⟩
    ⟨.ok [[("id", .int 1)]] none, fun _ => .ok [[("id", .int 1)]] none,
      .ok "" 0, .ok "\x7b\"query\": \"SELECT 1\"\x7d" 0⟩ rfl⟩

/-- Is this value a JSON object containing a `"query"` field? -/
def isObjWithQuery : Json → Bool
  | .obj fields => (findField "query" fields).isSome
  | _ => false

/-- C5 (counterexample): on input `"123"` every regex strategy fails and
the final whole-text `json.loads` returns the number `123` — a value that
is neither null nor an object containing a `"query"` field. -/
theorem C5_counterexample_not_query_object :
    extract_json_from_response "123" = some (.int 123)
    ∧ isObjWithQuery (.int 123) = false :=
  ⟨rfl, rfl⟩

theorem searchLeftmost_some (m : List Char → Option (List Char)) :
    ∀ l g, searchLeftmost m l = some g → ∃ l', m l' = some g := by
  intro l
  induction l with
  | nil => exact fun g h => ⟨[], h⟩
  | cons c t ih =>
    intro g h
    unfold searchLeftmost at h
    rcases hm : m (c :: t) with _ | g'
    · rw [hm] at h
      exact ih g h
    · rw [hm] at h
      injection h with h'
      subst h'
      exact ⟨c :: t, hm⟩

/-- Shape of any text matched by the first fallback regex: it starts with
`\x7b`, a quote, `query`, a quote, `:`. -/
theorem matchB1At_shape (l g : List Char) (h : matchB1At l = some g) :
    ∃ q1 q2 t, isQuoteC q1 = true ∧ isQuoteC q2 = true
      ∧ g = lbrace :: q1 :: 'q' :: 'u' :: 'e' :: 'r' :: 'y' :: q2 :: ':' :: t := by
  rcases l with _ | ⟨c0, _ | ⟨c1, rest⟩⟩
  · exact Option.noConfusion h
  · exact Option.noConfusion h
  · simp only [matchB1At] at h
    by_cases h1 : c0 = lbrace ∧ isQuoteC c1 = true ∧ startsWithL qPat rest = true
    · rw [if_pos h1] at h
      obtain ⟨hc0, hc1, -⟩ := h1
      rcases hd : rest.drop 5 with _ | ⟨c2, _ | ⟨c3, rest2⟩⟩ <;> rw [hd] at h
      · exact Option.noConfusion h
      · exact Option.noConfusion h
      · dsimp only at h
        by_cases h2 : isQuoteC c2 = true ∧ c3 = ':'
        · rw [if_pos h2] at h
          obtain ⟨hc2, hc3⟩ := h2
          rcases hv : b1ValueTail (rest2.dropWhile isPySpace) with _ | vt <;>
            rw [hv] at h
          · exact Option.noConfusion h
          · injection h with h'
            refine ⟨c1, c2, rest2.takeWhile isPySpace ++ vt, hc1, hc2, ?_⟩
            rw [← h', hc0, hc3]
            simp [qPat]
        · rw [if_neg h2] at h
          exact Option.noConfusion h
    · rw [if_neg h1] at h
      exact Option.noConfusion h

/-- Shape of any text matched by the strict fallback regexes. -/
theorem matchBStrictAt_shape (qc : Char) (allowNone : Bool) (l g : List Char)
    (h : matchBStrictAt qc allowNone l = some g) :
    ∃ t, g = lbrace :: qc :: 'q' :: 'u' :: 'e' :: 'r' :: 'y' :: qc :: ':' :: t := by
  rcases l with _ | ⟨c0, _ | ⟨c1, rest⟩⟩
  · exact Option.noConfusion h
  · exact Option.noConfusion h
  · simp only [matchBStrictAt] at h
    by_cases h1 : c0 = lbrace ∧ c1 = qc ∧ startsWithL qPat rest = true
    · rw [if_pos h1] at h
      obtain ⟨hc0, hc1, -⟩ := h1
      rcases hd : rest.drop 5 with _ | ⟨c2, _ | ⟨c3, rest2⟩⟩ <;> rw [hd] at h
      · exact Option.noConfusion h
      · exact Option.noConfusion h
      · dsimp only at h
        by_cases h2 : c2 = qc ∧ c3 = ':'
        · rw [if_pos h2] at h
          obtain ⟨hc2, hc3⟩ := h2
          rcases hv : bStrictValueTail qc allowNone (rest2.dropWhile isPySpace)
              with _ | vt <;>
            rw [hv] at h
          · exact Option.noConfusion h
          · injection h with h'
            refine ⟨rest2.takeWhile isPySpace ++ vt, ?_⟩
            rw [← h', hc0, hc1, hc2, hc3]
            simp [qPat]
        · rw [if_neg h2] at h
          exact Option.noConfusion h
    · rw [if_neg h1] at h
      exact Option.noConfusion h

theorem replaceNone_cons_ne (c : Char) (l : List Char) (hc : ¬ c = 'N') :
    replaceNone (c :: l) = c :: replaceNone l := by
  conv_lhs => rw [replaceNone.eq_def]
  split
  · rename_i rest heq
    injection heq with h1 _
    exact absurd h1 hc
  · rename_i c' rest heq
    injection heq with h1 h2
    rw [h1, h2]
  · rename_i heq
    exact List.noConfusion heq

/-- The quote-repair step turns either quote character into `\x22`. -/
theorem replaceChar_quote (q : Char) (hq : isQuoteC q = true) :
    (if q = sq then dq else q) = dq := by
  by_cases h : q = sq
  · rw [if_pos h]
  · rw [if_neg h]
    unfold isQuoteC at hq
    rcases Bool.or_eq_true_iff.mp hq with h' | h'
    · exact absurd (by simpa using h') h
    · simpa using h'

/-- Repair of a matched bracket pattern keeps the
`\x7b"query":`-prefix shape (with the quotes now `\x22`). -/
theorem pyRepairJson_queryPrefix (q1 q2 : Char) (t : List Char)
    (h1 : isQuoteC q1 = true) (h2 : isQuoteC q2 = true) :
    pyRepairJson (lbrace :: q1 :: 'q' :: 'u' :: 'e' :: 'r' :: 'y' :: q2 :: ':' :: t)
      = lbrace :: dq :: 'q' :: 'u' :: 'e' :: 'r' :: 'y' :: dq :: ':'
          :: replaceNone (replaceChar t sq dq) := by
  unfold pyRepairJson replaceChar
  simp only [List.map_cons]
  rw [replaceChar_quote q1 h1, replaceChar_quote q2 h2]
  rw [if_neg (by decide : ¬ lbrace = sq)]
  rw [if_neg (by decide : ¬ 'q' = sq), if_neg (by decide : ¬ 'u' = sq),
    if_neg (by decide : ¬ 'e' = sq), if_neg (by decide : ¬ 'r' = sq),
    if_neg (by decide : ¬ 'y' = sq), if_neg (by decide : ¬ ':' = sq)]
  rw [replaceNone_cons_ne _ _ (by decide), replaceNone_cons_ne _ _ (by decide),
    replaceNone_cons_ne _ _ (by decide), replaceNone_cons_ne _ _ (by decide),
    replaceNone_cons_ne _ _ (by decide), replaceNone_cons_ne _ _ (by decide),
    replaceNone_cons_ne _ _ (by decide), replaceNone_cons_ne _ _ (by decide),
    replaceNone_cons_ne _ _ (by decide)]

theorem findField_map_keep (k k' : String) (v : Json) :
    ∀ acc : List (String × Json), (findField k acc).isSome = true →
      (findField k (acc.map (fun kv => if kv.1 = k' then (k', v) else kv))).isSome
        = true := by
  intro acc
  induction acc with
  | nil => simp [findField]
  | cons kv rest ih =>
    intro h
    simp only [findField, List.map_cons] at h ⊢
    by_cases h2 : kv.1 = k'
    · rw [if_pos h2]
      by_cases h3 : k' = k
      · simp [h3]
      · rw [if_neg (fun hh => h3 hh)]
        rw [if_neg (fun hh => h3 (h2 ▸ hh))] at h
        exact ih h
    · rw [if_neg h2]
      by_cases h1 : kv.1 = k
      · simp [h1]
      · rw [if_neg h1] at h
        rw [if_neg h1]
        exact ih h

theorem findField_append_keep (k : String) (l2 : List (String × Json)) :
    ∀ acc : List (String × Json), (findField k acc).isSome = true →
      (findField k (acc ++ l2)).isSome = true := by
  intro acc
  induction acc with
  | nil => simp [findField]
  | cons kv rest ih =>
    intro h
    simp only [findField, List.cons_append] at h ⊢
    by_cases h1 : kv.1 = k
    · simp [h1]
    · rw [if_neg h1] at h ⊢
      exact ih h

theorem findField_addField (acc : List (String × Json)) (k' : String) (v : Json)
    (k : String) (h : (findField k acc).isSome = true) :
    (findField k (addField acc k' v)).isSome = true := by
  unfold addField
  by_cases ha : acc.any (fun kv => kv.1 = k') = true
  · rw [if_pos ha]
    exact findField_map_keep k k' v acc h
  · rw [if_neg ha]
    exact findField_append_keep k [(k', v)] acc h

/-- A plain string character is accumulated unchanged. -/
theorem parseJString_step (acc : List Char) (c : Char) (rest : List Char)
    (h1 : ¬ c = dq) (h2 : ¬ c = Char.ofNat 92) (h3 : ¬ c.toNat < 32) :
    parseJString acc (c :: rest) = parseJString (c :: acc) rest := by
  conv_lhs => rw [parseJString.eq_def]
  dsimp only
  rw [if_neg h1, if_neg h2, if_neg h3]

/-- The closing quote ends the string. -/
theorem parseJString_dq (acc : List Char) (rest : List Char) :
    parseJString acc (dq :: rest) = some (String.mk acc.reverse, rest) := by
  conv_lhs => rw [parseJString.eq_def]
  dsimp only
  rw [if_pos rfl]

/-- `parseObjTail`/`parseMember` preserve the presence of every key
already accumulated (duplicate keys only overwrite values in place). -/
theorem parse_obj_keys : ∀ fuel : Nat,
    (∀ acc l v r, parseObjTail fuel acc l = some (v, r) →
      ∀ k, (findField k acc).isSome = true →
        ∃ fields, v = .obj fields ∧ (findField k fields).isSome = true)
    ∧ (∀ acc l v r, parseMember fuel acc l = some (v, r) →
      ∀ k, (findField k acc).isSome = true →
        ∃ fields, v = .obj fields ∧ (findField k fields).isSome = true) := by
  intro fuel
  induction fuel with
  | zero =>
    constructor <;> (intro acc l v r h; exact Option.noConfusion h)
  | succ n ih =>
    constructor
    · intro acc l v r h k hk
      simp only [parseObjTail] at h
      rcases hl : l.dropWhile isJsonWs with _ | ⟨c, rest⟩ <;> rw [hl] at h
      · exact Option.noConfusion h
      · dsimp only at h
        by_cases hc : c = rbrace
        · rw [if_pos hc] at h
          injection h with h'
          injection h' with hv hr
          exact ⟨acc, hv.symm, hk⟩
        · rw [if_neg hc] at h
          by_cases hc2 : c = ','
          · rw [if_pos hc2] at h
            exact ih.2 acc _ v r h k hk
          · rw [if_neg hc2] at h
            exact Option.noConfusion h
    · intro acc l v r h k hk
      simp only [parseMember] at h
      rcases l with _ | ⟨c, rest⟩
      · exact Option.noConfusion h
      · dsimp only at h
        by_cases hc : c = dq
        · rw [if_pos hc] at h
          rcases hs : parseJString [] rest with _ | ⟨k', r1⟩ <;> rw [hs] at h
          · exact Option.noConfusion h
          · dsimp only at h
            rcases hd : r1.dropWhile isJsonWs with _ | ⟨d, r3⟩ <;> rw [hd] at h
            · exact Option.noConfusion h
            · dsimp only at h
              by_cases hdc : d = ':'
              · rw [if_pos hdc] at h
                rcases hv : parseValue n r3 with _ | ⟨v0, r4⟩ <;> rw [hv] at h
                · exact Option.noConfusion h
                · dsimp only at h
                  exact ih.1 (addField acc k' v0) r4 v r h k
                    (findField_addField acc k' v0 k hk)
              · rw [if_neg hdc] at h
                exact Option.noConfusion h
        · rw [if_neg hc] at h
          exact Option.noConfusion h

/-- Any successful parse of text starting `\x7b"query":` yields an object
that contains the key `"query"`. -/
theorem parseValue_queryObj : ∀ (fuel : Nat) (t : List Char) (v : Json) (r : List Char),
    parseValue fuel (lbrace :: dq :: 'q' :: 'u' :: 'e' :: 'r' :: 'y' :: dq :: ':' :: t)
      = some (v, r) → isObjWithQuery v = true := by
  intro fuel t v r h
  match fuel with
  | 0 => exact Option.noConfusion h
  | m + 1 =>
    simp only [parseValue] at h
    rw [show (lbrace :: dq :: 'q' :: 'u' :: 'e' :: 'r' :: 'y' :: dq :: ':' :: t).dropWhile
          isJsonWs = lbrace :: dq :: 'q' :: 'u' :: 'e' :: 'r' :: 'y' :: dq :: ':' :: t
        from rfl] at h
    dsimp only at h
    rw [if_neg (by decide : ¬ lbrace = dq), if_pos rfl] at h
    rw [show (dq :: 'q' :: 'u' :: 'e' :: 'r' :: 'y' :: dq :: ':' :: t).dropWhile isJsonWs
        = dq :: 'q' :: 'u' :: 'e' :: 'r' :: 'y' :: dq :: ':' :: t from rfl] at h
    try dsimp only at h
    rw [if_neg (by decide : ¬ dq = rbrace)] at h
    match m with
    | 0 => exact Option.noConfusion h
    | n + 1 =>
      simp only [parseMember] at h
      try dsimp only at h
      simp only [if_true] at h
      have hps : parseJString [] ('q' :: 'u' :: 'e' :: 'r' :: 'y' :: dq :: ':' :: t)
          = some ("query", ':' :: t) := by
        rw [parseJString_step _ _ _ (by decide) (by decide) (by decide),
          parseJString_step _ _ _ (by decide) (by decide) (by decide),
          parseJString_step _ _ _ (by decide) (by decide) (by decide),
          parseJString_step _ _ _ (by decide) (by decide) (by decide),
          parseJString_step _ _ _ (by decide) (by decide) (by decide),
          parseJString_dq]
        rfl
      rw [hps] at h
      try dsimp only at h
      rw [show (':' :: t).dropWhile isJsonWs = ':' :: t from rfl] at h
      try dsimp only at h
      rw [if_pos rfl] at h
      rcases hpv : parseValue n t with _ | ⟨v0, r4⟩ <;> rw [hpv] at h
      · exact Option.noConfusion h
      · try dsimp only at h
        have h3 : parseObjTail n [("query", v0)] r4 = some (v, r) := h
        obtain ⟨fields, hv, hq⟩ :=
          (parse_obj_keys n).1 [("query", v0)] r4 v r h3 "query" (by simp [findField])
        rw [hv]
        exact hq

/-- Any successful `json.loads` of text starting `\x7b"query":` yields an
object that contains the key `"query"`. -/
theorem jsonLoadsL_queryPrefix (t : List Char) (v : Json)
    (h : jsonLoadsL (lbrace :: dq :: 'q' :: 'u' :: 'e' :: 'r' :: 'y' :: dq :: ':' :: t)
      = some v) : isObjWithQuery v = true := by
  unfold jsonLoadsL at h
  rcases hp : parseValue
      ((lbrace :: dq :: 'q' :: 'u' :: 'e' :: 'r' :: 'y' :: dq :: ':' :: t).length + 1)
      (lbrace :: dq :: 'q' :: 'u' :: 'e' :: 'r' :: 'y' :: dq :: ':' :: t)
      with _ | ⟨v0, rest⟩ <;> rw [hp] at h
  · exact Option.noConfusion h
  · dsimp only at h
    by_cases he : (rest.dropWhile isJsonWs).isEmpty = true
    · rw [if_pos he] at h
      injection h with h'
      subst h'
      exact parseValue_queryObj _ t v0 rest hp
    · rw [if_neg he] at h
      exact Option.noConfusion h

/-- C5 (amended): whenever one of the three bracket-delimited
`query`-pattern fallback strategies produces a value, that value is a
JSON object containing a `"query"` field. (The fenced-block and
whole-text strategies return whatever JSON parses, which need not be an
object — see the counterexample.) -/
theorem C5_pattern_strategy_query_field (l : List Char) (v : Json)
    (h : patternStrategy matchB1At l = some v
      ∨ patternStrategy (matchBStrictAt dq false) l = some v
      ∨ patternStrategy (matchBStrictAt sq true) l = some v) :
    isObjWithQuery v = true := by
  have main : ∀ (g : List Char) (q1 q2 : Char) (t : List Char),
      isQuoteC q1 = true → isQuoteC q2 = true →
      g = lbrace :: q1 :: 'q' :: 'u' :: 'e' :: 'r' :: 'y' :: q2 :: ':' :: t →
      jsonLoadsL (pyRepairJson g) = some v → isObjWithQuery v = true := by
    intro g q1 q2 t hq1 hq2 hg hl
    subst hg
    rw [pyRepairJson_queryPrefix q1 q2 t hq1 hq2] at hl
    exact jsonLoadsL_queryPrefix _ v hl
  rcases h with h | h | h
  · unfold patternStrategy at h
    rcases hs : searchLeftmost matchB1At l with _ | g <;> rw [hs] at h
    · exact Option.noConfusion h
    · obtain ⟨l', hm⟩ := searchLeftmost_some _ l g hs
      obtain ⟨q1, q2, t, hq1, hq2, hg⟩ := matchB1At_shape l' g hm
      exact main g q1 q2 t hq1 hq2 hg h
  · unfold patternStrategy at h
    rcases hs : searchLeftmost (matchBStrictAt dq false) l with _ | g <;> rw [hs] at h
    · exact Option.noConfusion h
    · obtain ⟨l', hm⟩ := searchLeftmost_some _ l g hs
      obtain ⟨t, hg⟩ := matchBStrictAt_shape dq false l' g hm
      exact main g dq dq t (by decide) (by decide) hg h
  · unfold patternStrategy at h
    rcases hs : searchLeftmost (matchBStrictAt sq true) l with _ | g <;> rw [hs] at h
    · exact Option.noConfusion h
    · obtain ⟨l', hm⟩ := searchLeftmost_some _ l g hs
      obtain ⟨t, hg⟩ := matchBStrictAt_shape sq true l' g hm
      exact main g sq sq t (by decide) (by decide) hg h

/-- Witness for the amended C5: the first fallback pattern on
`\x7b'query': null\x7d` yields an object with a `"query"` field. -/
theorem C5_pattern_strategy_query_field_witness :
    patternStrategy matchB1At (lbrace :: sq :: ("query".data
        ++ sq :: ':' :: (" null".data ++ [rbrace])))
      = some (.obj [("query", .null)])
    ∧ isObjWithQuery (.obj [("query", .null)]) = true :=
  ⟨rfl, C5_pattern_strategy_query_field
    (lbrace :: sq :: ("query".data ++ sq :: ':' :: (" null".data ++ [rbrace])))
    (.obj [("query", .null)]) (Or.inl rfl)⟩

theorem dropAfterFirst_mem (p : Char) (ps : List Char) :
    ∀ l r : List Char, dropAfterFirst (p :: ps) l = some r → p ∈ l := by
  intro l
  induction l with
  | nil =>
    intro r h
    simp [dropAfterFirst, startsWithL] at h
  | cons c t ih =>
    intro r h
    unfold dropAfterFirst at h
    by_cases hs : startsWithL (p :: ps) (c :: t) = true
    · have hpc : p = c := by
        unfold startsWithL at hs
        exact of_decide_eq_true (Bool.and_elim_left hs)
      rw [hpc]
      exact List.mem_cons_self c t
    · rw [if_neg hs] at h
      exact List.mem_cons_of_mem c (ih r h)

/-- Both fenced-block strategies need a backtick in the text. -/
theorem fencedStrategy_none (tag : List Char) (l : List Char)
    (htag : tag = fenceJsonPat ∨ tag = fencePat) (hb : btick ∉ l) :
    fencedStrategy tag l = none := by
  have hda : dropAfterFirst tag l = none := by
    rcases hdo : dropAfterFirst tag l with _ | r
    · rfl
    · exfalso
      apply hb
      rcases htag with h' | h' <;> subst h' <;>
        simp only [fenceJsonPat, fencePat] at hdo <;>
        exact dropAfterFirst_mem btick _ l r hdo
  unfold fencedStrategy fencedContent
  rw [hda]

theorem matchB1At_head (l g : List Char) (h : matchB1At l = some g) : lbrace ∈ l := by
  rcases l with _ | ⟨c0, _ | ⟨c1, rest⟩⟩
  · exact Option.noConfusion h
  · exact Option.noConfusion h
  · simp only [matchB1At] at h
    by_cases h1 : c0 = lbrace ∧ isQuoteC c1 = true ∧ startsWithL qPat rest = true
    · rw [← h1.1]
      exact List.mem_cons_self c0 _
    · rw [if_neg h1] at h
      exact Option.noConfusion h

theorem matchBStrictAt_head (qc : Char) (allowNone : Bool) (l g : List Char)
    (h : matchBStrictAt qc allowNone l = some g) : lbrace ∈ l := by
  rcases l with _ | ⟨c0, _ | ⟨c1, rest⟩⟩
  · exact Option.noConfusion h
  · exact Option.noConfusion h
  · simp only [matchBStrictAt] at h
    by_cases h1 : c0 = lbrace ∧ c1 = qc ∧ startsWithL qPat rest = true
    · rw [← h1.1]
      exact List.mem_cons_self c0 _
    · rw [if_neg h1] at h
      exact Option.noConfusion h

theorem searchLeftmost_mem (m : List Char → Option (List Char))
    (hm : ∀ l' g, m l' = some g → lbrace ∈ l') :
    ∀ l g, searchLeftmost m l = some g → lbrace ∈ l := by
  intro l
  induction l with
  | nil => exact fun g h => hm [] g h
  | cons c t ih =>
    intro g h
    unfold searchLeftmost at h
    rcases hme : m (c :: t) with _ | g' <;> rw [hme] at h
    · exact List.mem_cons_of_mem c (ih g h)
    · exact hm (c :: t) g' hme

/-- The three bracket-pattern strategies need a `\x7b` in the text. -/
theorem patternStrategy_none (m : List Char → Option (List Char))
    (hm : ∀ l' g, m l' = some g → lbrace ∈ l') (l : List Char) (hb : lbrace ∉ l) :
    patternStrategy m l = none := by
  have hs : searchLeftmost m l = none := by
    rcases hso : searchLeftmost m l with _ | g
    · rfl
    · exact absurd (searchLeftmost_mem m hm l g hso) hb
  unfold patternStrategy
  rw [hs]

/-- C6: `extract_json_from_response` is a total function (each strategy,
including the recursive-descent `json.loads` model, returns an `Option`;
nothing raises), and whenever every strategy fails it returns `none` — in
particular, for text without backtick or brace characters whose whole-text
parse fails (no JSON-like substring), every strategy does fail. -/
theorem C6_extract_all_strategies_fail (response : String)
    (hb : btick ∉ response.data) (hl : lbrace ∉ response.data)
    (hj : jsonLoadsL response.data = none) :
    extract_json_from_response response = none := by
  unfold extract_json_from_response
  dsimp only
  rw [fencedStrategy_none fenceJsonPat response.data (Or.inl rfl) hb,
    fencedStrategy_none fencePat response.data (Or.inr rfl) hb,
    patternStrategy_none matchB1At matchB1At_head response.data hl,
    patternStrategy_none (matchBStrictAt dq false) (matchBStrictAt_head dq false)
      response.data hl,
    patternStrategy_none (matchBStrictAt sq true) (matchBStrictAt_head sq true)
      response.data hl,
    hj]

/-- Witness for C6 at a concrete no-JSON-like input. -/
theorem C6_extract_all_strategies_fail_witness :
    btick ∉ "The weather is nice today.".data
    ∧ lbrace ∉ "The weather is nice today.".data
    ∧ jsonLoadsL "The weather is nice today.".data = none
    ∧ extract_json_from_response "The weather is nice today." = none :=
  ⟨by decide, by decide, rfl,
    C6_extract_all_strategies_fail "The weather is nice today." (by decide) (by decide) rfl⟩

/-- Non-float values pass through normalisation unchanged. -/
theorem normVal_not_float (v : Json) (h : ∀ q, v ≠ .float q) : normVal v = v := by
  cases v <;> first | rfl | exact absurd rfl (h _)

/-- C10: per-field normalisation rounds exactly the values that are float
instances at the top level of a record: (1) every non-float field value —
ints, booleans, strings, and containers, including a list holding floats —
reappears unchanged in the normalised record; (2) every top-level float is
replaced by its two-decimal rounding; and in `compare_results` this makes
a nested float compare exactly (1.005 vs 1.0 in a list: unequal) while
the same floats at top level compare after rounding (equal). -/
theorem C10_round_only_top_level_floats :
    (∀ (row : Row) (k : String) (v : Json), (k, v) ∈ row → (∀ q, v ≠ .float q) →
      (k, v) ∈ norm_row row)
    ∧ (∀ (row : Row) (k : String) (q : PyFloat), (k, .float q) ∈ row →
      (k, .float (pyRound2 q)) ∈ norm_row row)
    ∧ compare_results [[("a", .arr [.float ⟨1005, 3⟩])]] [[("a", .arr [.float ⟨10, 1⟩])]]
        = false
    ∧ compare_results [[("a", .float ⟨1005, 3⟩)]] [[("a", .float ⟨10, 1⟩)]] = true := by
  refine ⟨?_, ?_, by decide, by decide⟩
  · intro row k v hmem hnf
    unfold norm_row
    have hmem2 : (k, v) ∈ List.insertionSort pairLe row :=
      (List.perm_insertionSort pairLe row).mem_iff.mpr hmem
    have : (fun kv : String × Json => (kv.1, normVal kv.2)) (k, v) = (k, v) := by
      simp [normVal_not_float v hnf]
    exact this ▸ List.mem_map_of_mem _ hmem2
  · intro row k q hmem
    unfold norm_row
    have hmem2 : (k, .float q) ∈ List.insertionSort pairLe row :=
      (List.perm_insertionSort pairLe row).mem_iff.mpr hmem
    exact List.mem_map_of_mem _ hmem2

/-- Witness for C10: a list-valued field keeps its full-precision float;
a top-level float field is rounded. -/
theorem C10_round_only_top_level_floats_witness :
    ("x", Json.arr [.float ⟨1005, 3⟩])
        ∈ norm_row [("x", .arr [.float ⟨1005, 3⟩]), ("b", .float ⟨25, 1⟩)]
    ∧ ("b", Json.float (pyRound2 ⟨25, 1⟩))
        ∈ norm_row [("x", .arr [.float ⟨1005, 3⟩]), ("b", .float ⟨25, 1⟩)] :=
  ⟨C10_round_only_top_level_floats.1 _ "x" _ (List.mem_cons_self _ _)
      (fun _ hq => Json.noConfusion hq),
    C10_round_only_top_level_floats.2.1 _ "b" ⟨25, 1⟩
      (List.mem_cons_of_mem _ (List.mem_cons_self _ _))⟩

/-- C4 (counterexample): two rows with different keys but identical sort
keys (`str(1)` in both). The stable sort leaves both orders unchanged, so
the unpermuted `actual` compares equal while its reversal — a permutation,
with perfectly sortable (string) keys — compares unequal. -/
theorem C4_counterexample_perm_changes_result :
    compare_results [[("a", Json.int 1)], [("b", Json.int 1)]]
        [[("a", Json.int 1)], [("b", Json.int 1)]] = true
    ∧ compare_results [[("a", Json.int 1)], [("b", Json.int 1)]]
        ([[("a", Json.int 1)], [("b", Json.int 1)]] : List Row).reverse = false
    ∧ (([[("a", Json.int 1)], [("b", Json.int 1)]] : List Row).reverse).Perm
        [[("a", Json.int 1)], [("b", Json.int 1)]] :=
  ⟨by decide, by decide, List.reverse_perm _⟩

/-- Two sorted lists that are permutations of each other are equal when
the sort keys are pairwise distinct. -/
theorem sorted_perm_eq_of_nodup_keys :
    ∀ l₁ l₂ : List Row, l₁.Perm l₂ → List.Sorted rowLe l₁ → List.Sorted rowLe l₂ →
      (l₁.map rowKey).Nodup → l₁ = l₂ := by
  intro l₁
  induction l₁ with
  | nil =>
    intro l₂ hp _ _ _
    exact (List.Perm.eq_nil hp.symm).symm
  | cons x xs ih =>
    intro l₂ hp hs₁ hs₂ hnd
    cases l₂ with
    | nil => exact List.noConfusion (List.Perm.eq_nil hp)
    | cons y ys =>
      by_cases hxy : x = y
      · subst hxy
        have hrest := ih ys hp.cons_inv hs₁.of_cons hs₂.of_cons (by
          simp only [List.map_cons, List.nodup_cons] at hnd
          exact hnd.2)
        rw [hrest]
      · exfalso
        have hx3 : x ∈ ys := by
          rcases List.mem_cons.mp (hp.mem_iff.mp (List.mem_cons_self x xs)) with h' | h'
          · exact absurd h' hxy
          · exact h'
        have hy2 : y ∈ xs := by
          rcases List.mem_cons.mp (hp.mem_iff.mpr (List.mem_cons_self y ys)) with h' | h'
          · exact absurd h'.symm hxy
          · exact h'
        have hle1 : rowLe x y := (List.sorted_cons.mp hs₁).1 y hy2
        have hle2 : rowLe y x := (List.sorted_cons.mp hs₂).1 x hx3
        have hkeq : rowKey x = rowKey y := keyLe_antisymm hle1 hle2
        simp only [List.map_cons, List.nodup_cons] at hnd
        exact hnd.1 (hkeq ▸ List.mem_map_of_mem rowKey hy2)

/-- C4 (amended): `compare_results` is invariant under permutations of
`actual` provided the normalised rows of `actual` have pairwise-distinct
sort keys (the counterexample forces exactly this proviso: rows whose
key tuples coincide keep their stable-sort order). The spec's concrete
scenario — expected `[⟨id,1⟩, ⟨id,2⟩]`, agent rows reversed — satisfies
the proviso and still yields `true` (see the witness). -/
theorem C4_perm_invariant_of_distinct_keys (expected actual actual2 : List Row)
    (hperm : actual.Perm actual2)
    (hnd : ((normalize_data actual).map rowKey).Nodup) :
    compare_results expected actual2 = compare_results expected actual := by
  have hlen : actual2.length = actual.length := hperm.length_eq.symm
  unfold compare_results
  rw [hlen]
  by_cases hl : expected.length ≠ actual.length
  · rw [if_pos hl, if_pos hl]
  · rw [if_neg hl, if_neg hl]
    have hpn : (normalize_data actual).Perm (normalize_data actual2) := hperm.map norm_row
    have hperm2 : (List.insertionSort rowLe (normalize_data actual)).Perm
        (List.insertionSort rowLe (normalize_data actual2)) :=
      ((List.perm_insertionSort rowLe (normalize_data actual)).trans hpn).trans
        (List.perm_insertionSort rowLe (normalize_data actual2)).symm
    have hnd2 : ((List.insertionSort rowLe (normalize_data actual)).map rowKey).Nodup :=
      (((List.perm_insertionSort rowLe (normalize_data actual)).map rowKey).nodup_iff).mpr hnd
    rw [sorted_perm_eq_of_nodup_keys _ _ hperm2
      (List.sorted_insertionSort rowLe _) (List.sorted_insertionSort rowLe _) hnd2]

/-- Witness for the amended C4, on the spec's scenario: reversing the two
`id` rows (distinct sort keys) does not change the comparison, which is
`true`. -/
theorem C4_perm_invariant_of_distinct_keys_witness :
    (([[("id", Json.int 1)], [("id", Json.int 2)]] : List Row)).Perm
        [[("id", Json.int 2)], [("id", Json.int 1)]]
    ∧ ((normalize_data [[("id", Json.int 1)], [("id", Json.int 2)]]).map rowKey).Nodup
    ∧ compare_results [[("id", Json.int 1)], [("id", Json.int 2)]]
        [[("id", Json.int 2)], [("id", Json.int 1)]]
      = compare_results [[("id", Json.int 1)], [("id", Json.int 2)]]
        [[("id", Json.int 1)], [("id", Json.int 2)]]
    ∧ compare_results [[("id", Json.int 1)], [("id", Json.int 2)]]
        [[("id", Json.int 2)], [("id", Json.int 1)]] = true :=
  ⟨(List.reverse_perm _).symm, by decide,
    C4_perm_invariant_of_distinct_keys
      [[("id", Json.int 1)], [("id", Json.int 2)]]
      [[("id", Json.int 1)], [("id", Json.int 2)]]
      [[("id", Json.int 2)], [("id", Json.int 1)]]
      (List.reverse_perm _).symm (by decide),
    by decide⟩

/-- C3: an exception anywhere in the evaluation sequence is caught at the
per-test boundary: `run_single_test` (a total function — nothing
propagates to the caller) returns a `TestResult` whose `error` is the
exception's message and whose `is_correct` is false. -/
theorem C3_exception_caught (tc : TestCase) (env : EvalEnv) (m : String) (st : EvalSt)
    (h : evalBody tc env = .error (m, st)) :
    (run_single_test tc env).error = some m
    ∧ (run_single_test tc env).is_correct = false := by
  have hic := evalBody_error_is_correct_false tc env m st h
  unfold run_single_test
  rw [h]
  exact ⟨rfl, hic⟩

/-- Witness for C3: the first agent call raises; the result records the
message and is not correct. -/
theorem C3_exception_caught_witness :
    (run_single_test ⟨"t", "p", none, none⟩
      ⟨.ok [] none, fun _ => .ok [] none, .raised "boom", .ok "" 0⟩).error = some "boom"
    ∧ (run_single_test ⟨"t", "p", none, none⟩
      ⟨.ok [] none, fun _ => .ok [] none, .raised "boom", .ok "" 0⟩).is_correct = false :=
  C3_exception_caught ⟨"t", "p", none, none⟩
    ⟨.ok [] none, fun _ => .ok [] none, .raised "boom", .ok "" 0⟩ "boom" {} rfl

end NB
